import Mathlib

/-!
Verification development for the room-membership core of the gameserver
repository (src/app/model.py).  The SQL tables `room` and `room_member` are
embedded as Lean lists of records, and every core operation of model.py is
translated as a pure function on a database state.  A python exception raised
inside `with engine.begin()` rolls the whole transaction back, so a fallible
operation is modelled as `Except Err`, where an error result carries no state.
-/

namespace GameServer

/-- Two-valued difficulty enumeration, from class LiveDifficulty in model.py. -/
inductive LiveDifficulty where
  | NORMAL
  | HARD
deriving DecidableEq, Repr

/-- Join outcome enumeration, from class JoinRoomResult in model.py. -/
inductive JoinRoomResult where
  | OK
  | ROOM_FULL
  | DISBANDED
  | OTHER_ERROR
deriving DecidableEq, Repr

/-- Room status enumeration, from class WaitRoomStatus in model.py (the typo
WATING is kept from the source). -/
inductive WaitRoomStatus where
  | WATING
  | LIVE_START
  | DISSOLUTION
deriving DecidableEq, Repr

/-- Exceptions of the python code: sqlalchemy .one() raising NoResultFound or
MultipleResultsFound is `noResult`; the bare Exception raised by start_room
and end_room on an unexpected rowcount is `invalidState`. -/
inductive Err where
  | noResult
  | invalidState
deriving DecidableEq, Repr

/-- A row of the `room` table.  `joined_user_count` is an Int because the
python code computes `joined_user_count - 1` and writes the result back
unconditionally, which can be negative in principle. -/
structure Room where
  id : Nat
  live_id : Nat
  joined_user_count : Int
  max_user_count : Int
  wait_room_status : WaitRoomStatus
deriving DecidableEq, Repr

/-- A row of the `room_member` table, following class RoomMemberRecord in
model.py.  `ttl` is an absolute deadline; NOW() is the `now` field of the
database state. -/
structure RoomMember where
  id : Nat
  user_id : Nat
  room_id : Nat
  select_difficulty : LiveDifficulty
  is_host : Bool
  judge_count_list : Option (List Int)
  score : Option Int
  ttl : Option Nat
deriving DecidableEq, Repr

/-- Projection returned by get_room_info_list, from class RoomInfo. -/
structure RoomInfo where
  room_id : Nat
  live_id : Nat
  joined_user_count : Int
  max_user_count : Int
deriving DecidableEq, Repr

/-- Projection returned by get_room_result, from class ResultUser. -/
structure ResultUser where
  user_id : Nat
  judge_count_list : List Int
  score : Int
deriving DecidableEq, Repr

/-- The database state: both tables, the autoincrement counters, and the
current clock (NOW()).  Rows are kept in insertion order, which for an
InnoDB autoincrement primary key is also ascending id order. -/
structure DB where
  rooms : List Room
  members : List RoomMember
  next_room_id : Nat
  next_member_id : Nat
  now : Nat
deriving DecidableEq, Repr

deriving instance DecidableEq for Except

/-- Modelled from the spec: config.py (TTL_POLLING_INTERVAL) is not among the
source files; the spec fixes no concrete value, only that the live interval
is the longer one, so representative values are used.  No theorem below
depends on the chosen values. -/
def TTL_POLLING_INTERVAL : Nat := 5

/-- Modelled from the spec: config.py (TTL_LIVE_INTERVAL) is not among the
source files; chosen larger than the polling interval. -/
def TTL_LIVE_INTERVAL : Nat := 300

/-- All membership rows of one room (WHERE room_id = rid). -/
def memsOf (db : DB) (rid : Nat) : List RoomMember :=
  db.members.filter (fun m => m.room_id == rid)

/-- The room row with a given id, if any. -/
def roomOf (db : DB) (rid : Nat) : Option Room :=
  db.rooms.find? (fun r => r.id == rid)

/-- Least element of a list of ids.  Used to model which row an UPDATE with
LIMIT 1 and no ORDER BY touches: the first row of the table scan, which for
an InnoDB clustered primary key is the row with the smallest id. -/
def minId? (l : List Nat) : Option Nat :=
  l.foldr (fun x acc => match acc with | none => some x | some a => some (Nat.min x a)) none

/-- The host-transfer statement of _leave_room: UPDATE `room_member` SET
`is_host`=true WHERE `room_id`=:room_id LIMIT 1, i.e. flag the remaining
member of the room with the smallest id (see minId?). -/
def promoteHost (db : DB) (rid : Nat) : DB :=
  match minId? ((memsOf db rid).map (fun m => m.id)) with
  | none => db
  | some i =>
    { db with members := db.members.map (fun m =>
        if m.id == i then { m with is_host := true } else m) }

/-- The state mutation performed by _leave_room once the membership row
(member, by .one()) and the locked room row (room, by .one()) have been
read: delete the membership, decrement the count, force DISSOLUTION when the
count drops below 1, write the room back, and transfer the host flag when a
host left a room that is not dissolved. -/
def leavePost (db : DB) (room_id : Nat) (member : RoomMember) (room : Room) : DB :=
  let cnt : Int := room.joined_user_count - 1
  let status : WaitRoomStatus :=
    if cnt < 1 then WaitRoomStatus.DISSOLUTION else room.wait_room_status
  let db1 : DB := { db with
    rooms := db.rooms.map (fun r =>
      if r.id == room_id then
        { r with joined_user_count := cnt, wait_room_status := status }
      else r),
    members := db.members.filter (fun m => m.id != member.id) }
  if status ≠ WaitRoomStatus.DISSOLUTION ∧ member.is_host = true then
    promoteHost db1 room_id
  else
    db1

/-- _leave_room of model.py: select the membership row (.one()), read the
room row under lock (.one()), then apply leavePost. -/
def leave_room (db : DB) (user_id room_id : Nat) : Except Err DB :=
  match db.members.filter (fun m => m.room_id == room_id && m.user_id == user_id) with
  | [member] =>
    match db.rooms.filter (fun r => r.id == room_id) with
    | [room] => .ok (leavePost db room_id member room)
    | _ => .error Err.noResult
  | _ => .error Err.noResult

/-- Sequential _leave_room calls for a prefetched list of (user_id, room_id)
pairs; the python cursor is materialised before the loop body runs. -/
def leavePairs : List (Nat × Nat) → DB → Except Err DB
  | [], db => .ok db
  | (u, r) :: ps, db =>
    match leave_room db u r with
    | .ok db1 => leavePairs ps db1
    | .error e => .error e

/-- _valitate_duplicate_member of model.py (source spelling kept): evict the
user from every room other than room_id via _leave_room. -/
def valitate_duplicate_member (db : DB) (user_id room_id : Nat) : Except Err DB :=
  leavePairs
    ((db.members.filter (fun m => m.user_id == user_id && m.room_id != room_id)).map
      (fun m => (user_id, m.room_id)))
    db

/-- _update_member_ttl of model.py: set ttl = NOW() + time for the rows of the
room, restricted to one user when user_id is given. -/
def update_member_ttl (db : DB) (room_id : Nat) (user_id : Option Nat) (time : Nat) : DB :=
  { db with members := db.members.map (fun m =>
      if (match user_id with | none => true | some u => m.user_id == u) && m.room_id == room_id
      then { m with ttl := some (db.now + time) }
      else m) }

/-- The state mutation of the successful insert branch of _join_room:
increment joined_user_count of the room and insert the new membership row
with a fresh autoincrement id, no result payload, and ttl NOW() plus the
polling interval. -/
def joinInsert (db : DB) (user_id room_id : Nat)
    (select_difficulty : LiveDifficulty) (is_host : Bool) : DB :=
  { db with
    rooms := db.rooms.map (fun r =>
      if r.id == room_id then { r with joined_user_count := r.joined_user_count + 1 }
      else r),
    members := db.members ++
      [{ id := db.next_member_id, user_id := user_id, room_id := room_id,
         select_difficulty := select_difficulty, is_host := is_host,
         judge_count_list := none, score := none,
         ttl := some (db.now + TTL_POLLING_INTERVAL) }],
    next_member_id := db.next_member_id + 1 }

/-- _join_room of model.py: evict stale memberships, answer OK idempotently
when the membership already exists, otherwise lock the room and either refuse
(DISBANDED, ROOM_FULL) or increment the count and insert the new member. -/
def join_room_core (db : DB) (user_id room_id : Nat)
    (select_difficulty : LiveDifficulty) (is_host : Bool) :
    Except Err (JoinRoomResult × DB) :=
  match valitate_duplicate_member db user_id room_id with
  | .error e => .error e
  | .ok db1 =>
    match db1.members.filter (fun m => m.user_id == user_id && m.room_id == room_id) with
    | [] =>
      match db1.rooms.filter (fun r => r.id == room_id) with
      | [room] =>
        if room.wait_room_status ≠ WaitRoomStatus.WATING then
          .ok (JoinRoomResult.DISBANDED, db1)
        else if room.max_user_count ≤ room.joined_user_count then
          .ok (JoinRoomResult.ROOM_FULL, db1)
        else
          .ok (JoinRoomResult.OK, joinInsert db1 user_id room_id select_difficulty is_host)
      | _ => .error Err.noResult
    | [_] => .ok (JoinRoomResult.OK, db1)
    | _ => .error Err.noResult

/-- create_room of model.py (identity resolution stripped): insert the room
row with count 0, max 4, status WATING, then join the creator as host; the
join result value is discarded by the source. -/
def create_room (db : DB) (user_id live_id : Nat) (select_difficulty : LiveDifficulty) :
    Except Err (Nat × DB) :=
  let room : Room :=
    { id := db.next_room_id, live_id := live_id, joined_user_count := 0,
      max_user_count := 4, wait_room_status := WaitRoomStatus.WATING }
  let db1 : DB := { db with rooms := db.rooms ++ [room], next_room_id := db.next_room_id + 1 }
  match join_room_core db1 user_id db.next_room_id select_difficulty true with
  | .error e => .error e
  | .ok (_, db2) => .ok (db.next_room_id, db2)

/-- join_room of model.py (identity resolution stripped): _join_room with
is_host = False. -/
def join_room (db : DB) (user_id room_id : Nat) (select_difficulty : LiveDifficulty) :
    Except Err (JoinRoomResult × DB) :=
  join_room_core db user_id room_id select_difficulty false

/-- get_room_info_list of model.py (identity resolution stripped): evict
stale memberships of the caller (room_id argument 0), then select the rooms
with free seats and status WATING (value 1), filtered by live_id when the
python value is truthy, i.e. nonzero. -/
def get_room_info_list (db : DB) (user_id live_id : Nat) :
    Except Err (List RoomInfo × DB) :=
  match valitate_duplicate_member db user_id 0 with
  | .error e => .error e
  | .ok db1 =>
    .ok ((db1.rooms.filter (fun r =>
        decide (r.joined_user_count < r.max_user_count) &&
        r.wait_room_status == WaitRoomStatus.WATING &&
        (live_id == 0 || r.live_id == live_id))).map
      (fun r => ({ room_id := r.id, live_id := r.live_id,
                   joined_user_count := r.joined_user_count,
                   max_user_count := r.max_user_count } : RoomInfo)),
      db1)

/-- start_room of model.py: require the caller to be a member (.one() via
_get_room_member), refresh the ttl of every member of the room to the live
interval, then conditionally move the room WATING to LIVE_START; when the
conditional update matches no row the bare Exception rolls everything back. -/
def start_room (db : DB) (user_id room_id : Nat) : Except Err DB :=
  match db.members.filter (fun m => m.user_id == user_id && m.room_id == room_id) with
  | [_] =>
    let db1 := update_member_ttl db room_id none TTL_LIVE_INTERVAL
    let matched := db1.rooms.countP (fun r =>
      r.id == room_id && r.wait_room_status == WaitRoomStatus.WATING)
    if matched == 1 then
      .ok { db1 with rooms := db1.rooms.map (fun r =>
        if r.id == room_id && r.wait_room_status == WaitRoomStatus.WATING
        then { r with wait_room_status := WaitRoomStatus.LIVE_START }
        else r) }
    else .error Err.invalidState
  | _ => .error Err.noResult

/-- end_room of model.py: refresh the ttl of every member of the room to the
polling interval, then write judge_count_list and score onto the membership
row of the caller; an unexpected rowcount raises and rolls back. -/
def end_room (db : DB) (user_id room_id : Nat)
    (judge_count_list : List Int) (score : Int) : Except Err DB :=
  let db1 := update_member_ttl db room_id none TTL_POLLING_INTERVAL
  let matched := db1.members.countP (fun m =>
    m.user_id == user_id && m.room_id == room_id)
  if matched == 1 then
    .ok { db1 with members := db1.members.map (fun m =>
      if m.user_id == user_id && m.room_id == room_id
      then { m with judge_count_list := some judge_count_list, score := some score }
      else m) }
  else .error Err.invalidState

/-- _dissolution_room of model.py: delete every membership of the room and
force the room row to count 0, status DISSOLUTION. -/
def dissolution_room (db : DB) (room_id : Nat) : DB :=
  { db with
    members := db.members.filter (fun m => m.room_id != room_id),
    rooms := db.rooms.map (fun r =>
      if r.id == room_id
      then { r with joined_user_count := 0, wait_room_status := WaitRoomStatus.DISSOLUTION }
      else r) }

/-- The rows selected by the result query of get_room_result: members of the
room whose judge_count_list and score are both non-NULL, projected to
ResultUser. -/
def submittedResults (db : DB) (room_id : Nat) : List ResultUser :=
  (db.members.filter (fun m =>
      m.room_id == room_id && m.judge_count_list.isSome && m.score.isSome)).map
    (fun m => ({ user_id := m.user_id,
                 judge_count_list := m.judge_count_list.getD [],
                 score := m.score.getD 0 } : ResultUser))

/-- get_room_result of model.py: refresh the ttl of the caller, read the
joined_user_count of the room through .one() conditioned on status
LIVE_START (raising when the room is not LIVE_START), collect the submitted
results, and either report not-ready with an empty list or dissolve the room
and return the full list. -/
def get_room_result (db : DB) (user_id room_id : Nat) :
    Except Err (List ResultUser × DB) :=
  let db1 := update_member_ttl db room_id (some user_id) TTL_POLLING_INTERVAL
  match db1.rooms.filter (fun r =>
      r.id == room_id && r.wait_room_status == WaitRoomStatus.LIVE_START) with
  | [room] =>
    let results := submittedResults db1 room_id
    if (results.length : Int) < room.joined_user_count then
      .ok ([], db1)
    else if results.all (fun ru => ru.user_id != user_id) then
      .ok ([], db1)
    else
      .ok (results, dissolution_room db1 room_id)
  | _ => .error Err.noResult

/-- Whether a membership row has expired at clock value now (ttl < NOW();
a NULL ttl never compares true in SQL). -/
def expiredB (now : Nat) (m : RoomMember) : Bool :=
  match m.ttl with
  | some t => decide (t < now)
  | none => false

/-- _leave_expired_member / leave_expired_member of model.py: select the
expired (user_id, room_id) pairs, then run _leave_room for each. -/
def leave_expired_member (db : DB) : Except Err DB :=
  leavePairs ((db.members.filter (expiredB db.now)).map (fun m => (m.user_id, m.room_id))) db

/-- The empty database: MySQL autoincrement ids start at 1. -/
def initDB : DB :=
  { rooms := [], members := [], next_room_id := 1, next_member_id := 1, now := 0 }

/-- Number of membership rows of a room carrying the host flag. -/
def hostCount (db : DB) (rid : Nat) : Nat :=
  (memsOf db rid).countP (fun m => m.is_host)

/-- A membership row with the host flag cleared; two member lists that agree
after mapping hostless agree on everything except host flags. -/
def hostless (m : RoomMember) : RoomMember := { m with is_host := false }

/-- Structural well-formedness of the database: unique primary keys, unique
user over the membership table (one room per user), autoincrement counters
ahead of every id, ids positive, and referential integrity of room_id. -/
def Inv0 (db : DB) : Prop :=
  (db.rooms.map (fun r => r.id)).Nodup ∧
  (db.members.map (fun m => m.id)).Nodup ∧
  (db.members.map (fun m => m.user_id)).Nodup ∧
  (∀ r ∈ db.rooms, 0 < r.id ∧ r.id < db.next_room_id) ∧
  (∀ m ∈ db.members, m.id < db.next_member_id) ∧
  (∀ m ∈ db.members, ∃ r ∈ db.rooms, r.id = m.room_id) ∧
  0 < db.next_room_id

/-- Per-room counting and host invariant, weak form: the count matches the
membership rows, capacity is respected with the fixed maximum 4, a nonempty
room has exactly one host, and a dissolved room is empty.  This weak form
also holds for the intermediate room freshly inserted by create_room. -/
def RoomOkW (db : DB) (r : Room) : Prop :=
  r.joined_user_count = ((memsOf db r.id).length : Int) ∧
  r.joined_user_count ≤ r.max_user_count ∧
  r.max_user_count = 4 ∧
  (0 < r.joined_user_count → hostCount db r.id = 1) ∧
  (r.wait_room_status = WaitRoomStatus.DISSOLUTION → r.joined_user_count = 0)

/-- Per-room invariant: the weak form plus the terminal condition that a room
drained to zero members has been dissolved. -/
def RoomOk (db : DB) (r : Room) : Prop :=
  RoomOkW db r ∧
  (r.joined_user_count = 0 → r.wait_room_status = WaitRoomStatus.DISSOLUTION)

/-- Weak database invariant (used across the intermediate state of
create_room). -/
def InvW (db : DB) : Prop :=
  Inv0 db ∧ ∀ r ∈ db.rooms, RoomOkW db r

/-- Full database invariant of reachable states. -/
def Inv (db : DB) : Prop :=
  Inv0 db ∧ ∀ r ∈ db.rooms, RoomOk db r

/-- One step of the system: any core operation of model.py that returns
normally, or the clock advancing between operations. -/
inductive Step : DB → DB → Prop where
  | create (db : DB) (u l : Nat) (d : LiveDifficulty) (rid : Nat) (db2 : DB) :
      create_room db u l d = .ok (rid, db2) → Step db db2
  | join (db : DB) (u rid : Nat) (d : LiveDifficulty) (res : JoinRoomResult) (db2 : DB) :
      join_room db u rid d = .ok (res, db2) → Step db db2
  | leave (db : DB) (u rid : Nat) (db2 : DB) :
      leave_room db u rid = .ok db2 → Step db db2
  | list (db : DB) (u l : Nat) (out : List RoomInfo) (db2 : DB) :
      get_room_info_list db u l = .ok (out, db2) → Step db db2
  | start (db : DB) (u rid : Nat) (db2 : DB) :
      start_room db u rid = .ok db2 → Step db db2
  | finish (db : DB) (u rid : Nat) (jl : List Int) (s : Int) (db2 : DB) :
      end_room db u rid jl s = .ok db2 → Step db db2
  | result (db : DB) (u rid : Nat) (out : List ResultUser) (db2 : DB) :
      get_room_result db u rid = .ok (out, db2) → Step db db2
  | sweep (db : DB) (db2 : DB) :
      leave_expired_member db = .ok db2 → Step db db2
  | tick (db : DB) (t : Nat) :
      Step db { db with now := db.now + t }

/-- States reachable from the empty database by core operations. -/
inductive Reachable : DB → Prop where
  | init : Reachable initDB
  | step (db db2 : DB) : Reachable db → Step db db2 → Reachable db2

/-- Example state: one WATING room with host user 7 and member user 8. -/
def dbA : DB :=
  { rooms := [{ id := 1, live_id := 1001, joined_user_count := 2,
                max_user_count := 4, wait_room_status := WaitRoomStatus.WATING }],
    members :=
      [{ id := 1, user_id := 7, room_id := 1,
         select_difficulty := LiveDifficulty.NORMAL, is_host := true,
         judge_count_list := none, score := none, ttl := some 5 },
       { id := 2, user_id := 8, room_id := 1,
         select_difficulty := LiveDifficulty.HARD, is_host := false,
         judge_count_list := none, score := none, ttl := some 99 }],
    next_room_id := 2, next_member_id := 3, now := 0 }

/-- Example state: the state produced by user 9 joining the room of dbA. -/
def dbAJoined : DB :=
  { rooms := [{ id := 1, live_id := 1001, joined_user_count := 3,
                max_user_count := 4, wait_room_status := WaitRoomStatus.WATING }],
    members :=
      [{ id := 1, user_id := 7, room_id := 1,
         select_difficulty := LiveDifficulty.NORMAL, is_host := true,
         judge_count_list := none, score := none, ttl := some 5 },
       { id := 2, user_id := 8, room_id := 1,
         select_difficulty := LiveDifficulty.HARD, is_host := false,
         judge_count_list := none, score := none, ttl := some 99 },
       { id := 3, user_id := 9, room_id := 1,
         select_difficulty := LiveDifficulty.NORMAL, is_host := false,
         judge_count_list := none, score := none, ttl := some 5 }],
    next_room_id := 2, next_member_id := 4, now := 0 }

/-- Example state: a WATING room whose single member already submitted a
result (reachable via end_room before start_room). -/
def dbSubW : DB :=
  { rooms := [{ id := 1, live_id := 1001, joined_user_count := 1,
                max_user_count := 4, wait_room_status := WaitRoomStatus.WATING }],
    members :=
      [{ id := 1, user_id := 7, room_id := 1,
         select_difficulty := LiveDifficulty.NORMAL, is_host := true,
         judge_count_list := some [1], score := some 10, ttl := some 5 }],
    next_room_id := 2, next_member_id := 2, now := 0 }

/-- Example state: a LIVE_START room where both members submitted results. -/
def dbLive : DB :=
  { rooms := [{ id := 1, live_id := 1001, joined_user_count := 2,
                max_user_count := 4, wait_room_status := WaitRoomStatus.LIVE_START }],
    members :=
      [{ id := 1, user_id := 7, room_id := 1,
         select_difficulty := LiveDifficulty.NORMAL, is_host := true,
         judge_count_list := some [1, 2], score := some 100, ttl := some 5 },
       { id := 2, user_id := 8, room_id := 1,
         select_difficulty := LiveDifficulty.HARD, is_host := false,
         judge_count_list := some [3], score := some 200, ttl := some 5 }],
    next_room_id := 2, next_member_id := 3, now := 0 }

/-- Example state: dbA with the clock advanced past both ttl deadlines. -/
def dbExp : DB :=
  { rooms := [{ id := 1, live_id := 1001, joined_user_count := 2,
                max_user_count := 4, wait_room_status := WaitRoomStatus.WATING }],
    members :=
      [{ id := 1, user_id := 7, room_id := 1,
         select_difficulty := LiveDifficulty.NORMAL, is_host := true,
         judge_count_list := none, score := none, ttl := some 5 },
       { id := 2, user_id := 8, room_id := 1,
         select_difficulty := LiveDifficulty.HARD, is_host := false,
         judge_count_list := none, score := none, ttl := some 99 }],
    next_room_id := 2, next_member_id := 3, now := 100 }

/-- Example state: the state produced by create_room from the empty
database for user 7 and live 1001. -/
def dbCreated : DB :=
  { rooms := [{ id := 1, live_id := 1001, joined_user_count := 1,
                max_user_count := 4, wait_room_status := WaitRoomStatus.WATING }],
    members :=
      [{ id := 1, user_id := 7, room_id := 1,
         select_difficulty := LiveDifficulty.NORMAL, is_host := true,
         judge_count_list := none, score := none, ttl := some 5 }],
    next_room_id := 2, next_member_id := 2, now := 0 }

/-! Generic list lemmas about sqlalchemy row operations: .one() results as
singleton filters, rowcount reasoning as countP, and primary-key uniqueness
as Nodup of the mapped id column. -/

theorem mem_of_filter_singleton {α : Type} {p : α → Bool} {l : List α} {a : α}
    (h : l.filter p = [a]) : a ∈ l ∧ p a = true := by
  have ha : a ∈ l.filter p := by rw [h]; exact List.mem_singleton_self a
  exact List.mem_filter.mp ha

theorem unique_of_filter_singleton {α : Type} {p : α → Bool} {l : List α} {a : α}
    (h : l.filter p = [a]) : ∀ x ∈ l, p x = true → x = a := by
  intro x hx hpx
  have hm : x ∈ l.filter p := List.mem_filter.mpr ⟨hx, hpx⟩
  rw [h] at hm
  exact List.mem_singleton.mp hm

theorem filter_eq_singleton_of_unique {α : Type} {p : α → Bool} {l : List α} {a : α}
    (hnd : l.Nodup) (ha : a ∈ l) (hpa : p a = true)
    (hu : ∀ x ∈ l, p x = true → x = a) : l.filter p = [a] := by
  induction l with
  | nil => cases ha
  | cons x xs ih =>
    rcases List.nodup_cons.mp hnd with ⟨hxnotin, hnd2⟩
    rcases List.mem_cons.mp ha with rfl | h1
    · rw [List.filter_cons, if_pos hpa]
      have hnil : xs.filter p = [] := by
        rw [List.filter_eq_nil]
        intro y hy hpy
        have hya : y = a := hu y (List.mem_cons_of_mem _ hy) hpy
        exact hxnotin (hya ▸ hy)
      rw [hnil]
    · have hpx : ¬ p x = true := by
        intro hc
        have hxa : x = a := hu x (List.mem_cons_self x xs) hc
        exact hxnotin (hxa ▸ h1)
      rw [List.filter_cons, if_neg hpx]
      exact ih hnd2 h1 (fun y hy hpy => hu y (List.mem_cons_of_mem _ hy) hpy)

theorem filter_nil_or_singleton {α β : Type} (f : α → β) {p : α → Bool} {l : List α}
    (hn : (l.map f).Nodup) {c : β} (hc : ∀ x ∈ l, p x = true → f x = c) :
    l.filter p = [] ∨ ∃ a, l.filter p = [a] := by
  match hfl : l.filter p with
  | [] => exact Or.inl rfl
  | [a] => exact Or.inr ⟨a, rfl⟩
  | a :: b :: rest =>
    exfalso
    have hsub : ((l.filter p).map f).Sublist (l.map f) := (List.filter_sublist l).map f
    have hnd : ((l.filter p).map f).Nodup := List.Nodup.sublist hsub hn
    rw [hfl] at hnd
    have ha : a ∈ l.filter p := by rw [hfl]; exact List.mem_cons_self _ _
    have hb : b ∈ l.filter p := by
      rw [hfl]; exact List.mem_cons_of_mem _ (List.mem_cons_self _ _)
    have hfa : f a = c := hc a (List.mem_of_mem_filter ha) (List.of_mem_filter ha)
    have hfb : f b = c := hc b (List.mem_of_mem_filter hb) (List.of_mem_filter hb)
    rcases List.nodup_cons.mp hnd with ⟨hnotin, _⟩
    exact hnotin (by rw [List.map_cons, List.mem_cons]; exact Or.inl (hfa.trans hfb.symm))

theorem countP_filter_ne {α : Type} (f : α → Nat) (p : α → Bool) {l : List α} {a : α}
    (hn : (l.map f).Nodup) (ha : a ∈ l) :
    (l.filter (fun x => f x != f a)).countP p + (if p a = true then 1 else 0) =
      l.countP p := by
  induction l with
  | nil => cases ha
  | cons x xs ih =>
    rw [List.map_cons, List.nodup_cons] at hn
    rcases List.mem_cons.mp ha with rfl | h1
    · have hfilter : xs.filter (fun y => f y != f a) = xs := by
        rw [List.filter_eq_self]
        intro y hy
        simp only [bne_iff_ne, ne_eq]
        intro hyx
        exact hn.1 (hyx ▸ List.mem_map_of_mem f hy)
      rw [List.filter_cons, if_neg (by simp), hfilter, List.countP_cons]
    · have hfx : (f x != f a) = true := by
        simp only [bne_iff_ne, ne_eq]
        intro he
        exact hn.1 (he ▸ List.mem_map_of_mem f h1)
      rw [List.filter_cons, if_pos hfx, List.countP_cons, List.countP_cons,
        ← ih hn.2 h1]
      omega

theorem length_filter_ne {α : Type} (f : α → Nat) {l : List α} {a : α}
    (hn : (l.map f).Nodup) (ha : a ∈ l) :
    (l.filter (fun x => f x != f a)).length + 1 = l.length := by
  have h := countP_filter_ne f (fun _ => true) hn ha
  simpa using h

theorem minId?_cons_none {xs : List Nat} {x : Nat} (h : minId? xs = none) :
    minId? (x :: xs) = some x := by
  have he : minId? (x :: xs) =
      match minId? xs with | none => some x | some a => some (Nat.min x a) := rfl
  rw [he, h]

theorem minId?_cons_some {xs : List Nat} {x a : Nat} (h : minId? xs = some a) :
    minId? (x :: xs) = some (Nat.min x a) := by
  have he : minId? (x :: xs) =
      match minId? xs with | none => some x | some a => some (Nat.min x a) := rfl
  rw [he, h]

theorem minId?_isSome {l : List Nat} (h : l ≠ []) : ∃ i, minId? l = some i := by
  cases l with
  | nil => exact absurd rfl h
  | cons x xs =>
    cases hx : minId? xs with
    | none => exact ⟨x, minId?_cons_none hx⟩
    | some a => exact ⟨Nat.min x a, minId?_cons_some hx⟩

theorem minId?_mem {l : List Nat} {i : Nat} (h : minId? l = some i) : i ∈ l := by
  induction l generalizing i with
  | nil => cases h
  | cons x xs ih =>
    cases hx : minId? xs with
    | none =>
      rw [minId?_cons_none hx] at h
      injection h with h2
      exact h2 ▸ List.mem_cons_self _ _
    | some a =>
      rw [minId?_cons_some hx] at h
      injection h with h2
      have h3 : min x a = i := h2
      have hia : i = x ∨ i = a := by omega
      rcases hia with rfl | rfl
      · exact List.mem_cons_self _ _
      · exact List.mem_cons_of_mem _ (ih hx)

theorem minId?_le {l : List Nat} {i : Nat} (h : minId? l = some i) :
    ∀ j ∈ l, i ≤ j := by
  induction l generalizing i with
  | nil => cases h
  | cons x xs ih =>
    intro j hj
    cases hx : minId? xs with
    | none =>
      rw [minId?_cons_none hx] at h
      injection h with h2
      have hxs : xs = [] := by
        cases hxx : xs with
        | nil => rfl
        | cons y ys =>
          rw [hxx] at hx
          cases hy : minId? ys with
          | none => rw [minId?_cons_none hy] at hx; cases hx
          | some b => rw [minId?_cons_some hy] at hx; cases hx
      subst hxs
      have hjx : j = x := List.mem_singleton.mp hj
      omega
    | some a =>
      rw [minId?_cons_some hx] at h
      injection h with h2
      have h3 : min x a = i := h2
      rcases List.mem_cons.mp hj with rfl | hj2
      · omega
      · have h4 := ih hx j hj2
        omega

theorem countP_setHost {l : List RoomMember} {i : Nat}
    (hn : (l.map (fun m => m.id)).Nodup) (hi : i ∈ l.map (fun m => m.id))
    (h0 : l.countP (fun m => m.is_host) = 0) :
    (l.map (fun m => if m.id == i then { m with is_host := true } else m)).countP
      (fun m => m.is_host) = 1 := by
  induction l with
  | nil => cases hi
  | cons x xs ih =>
    rw [List.map_cons, List.nodup_cons] at hn
    rw [List.countP_cons] at h0
    have hxs0 : xs.countP (fun m => m.is_host) = 0 := by omega
    have hx0 : x.is_host = false := by
      cases hh : x.is_host with
      | false => rfl
      | true => rw [hh] at h0; simp at h0
    rw [List.map_cons, List.countP_cons]
    rcases List.mem_cons.mp hi with h1 | h1
    · subst h1
      have htail :
          (xs.map (fun m => if m.id == x.id then { m with is_host := true } else m)).countP
            (fun m => m.is_host) = 0 := by
        rw [List.countP_map]
        rw [List.countP_eq_zero]
        intro y hy
        have hyid : (y.id == x.id) = false := by
          simp only [beq_eq_false_iff_ne, ne_eq]
          intro he
          exact hn.1 (he ▸ List.mem_map_of_mem _ hy)
        simp only [Function.comp_apply, hyid]
        rw [List.countP_eq_zero] at hxs0
        simpa using hxs0 y hy
      rw [htail]
      simp
    · have hxid : (x.id == i) = false := by
        simp only [beq_eq_false_iff_ne, ne_eq]
        intro he
        exact hn.1 (he ▸ h1)
      have hgx : (if x.id == i then { x with is_host := true } else x) = x := by
        rw [hxid]; simp
      rw [hgx, ih hn.2 h1 hxs0, hx0]
      simp

theorem map_id_on {α : Type} {g : α → α} {l : List α} (h : ∀ x ∈ l, g x = x) :
    l.map g = l := by
  induction l with
  | nil => rfl
  | cons x xs ih =>
    rw [List.map_cons, h x (List.mem_cons_self x xs),
      ih (fun y hy => h y (List.mem_cons_of_mem _ hy))]

theorem map_map_col {α β : Type} (g : α → α) (f : α → β) (h : ∀ x, f (g x) = f x)
    (l : List α) : (l.map g).map f = l.map f := by
  rw [List.map_map]
  exact List.map_congr_left (fun a _ => h a)

theorem filter_map_pres {α : Type} (q : α → Bool) (g : α → α) (h : ∀ x, q (g x) = q x)
    (l : List α) : (l.map g).filter q = (l.filter q).map g := by
  rw [List.filter_map]
  exact congrArg _ (List.filter_congr (fun a _ => h a))

/-! Structural anatomy of promoteHost and leavePost: the room table update,
the frame on the counters and the clock, and the shape of the member table
after deletion and possible host promotion. -/

theorem promoteHost_state (db : DB) (rid : Nat) :
    (promoteHost db rid).rooms = db.rooms ∧
    (promoteHost db rid).next_room_id = db.next_room_id ∧
    (promoteHost db rid).next_member_id = db.next_member_id ∧
    (promoteHost db rid).now = db.now := by
  unfold promoteHost
  split <;> exact ⟨rfl, rfl, rfl, rfl⟩

theorem promoteHost_members_shape (db : DB) (rid : Nat)
    (hn : (db.members.map (fun m => m.id)).Nodup) :
    ∃ g : RoomMember → RoomMember,
      (∀ m, g m = m ∨ g m = { m with is_host := true }) ∧
      (promoteHost db rid).members = db.members.map g ∧
      (∀ m ∈ db.members, m.room_id ≠ rid → g m = m) := by
  unfold promoteHost
  split
  · exact ⟨fun m => m, fun _ => Or.inl rfl, (map_id_on (fun x _ => rfl)).symm,
      fun _ _ _ => rfl⟩
  · next i hmin =>
    refine ⟨fun m => if m.id == i then { m with is_host := true } else m,
      fun m => ?_, rfl, fun m hm hroom => ?_⟩
    · by_cases h : (m.id == i) = true <;> simp [h]
    · have hi := minId?_mem hmin
      rcases List.mem_map.mp hi with ⟨m2, hm2, hm2i⟩
      have hm2mem := List.mem_filter.mp hm2
      have hm2rid : m2.room_id = rid := by
        have h2 := hm2mem.2
        simpa using h2
      have hne : (m.id == i) = false := by
        simp only [beq_eq_false_iff_ne, ne_eq]
        intro hmi
        have hmm2 : m = m2 :=
          List.inj_on_of_nodup_map hn hm hm2mem.1 (by rw [hmi, hm2i])
        exact hroom (hmm2 ▸ hm2rid)
      simp [hne]

theorem promote_shape_applied (db : DB) (rid : Nat) (member : RoomMember)
    (hn : (db.members.map (fun m => m.id)).Nodup) (db1 : DB)
    (h1 : db1.members = db.members.filter (fun m => m.id != member.id)) :
    ∃ g : RoomMember → RoomMember,
      (∀ m, g m = m ∨ g m = { m with is_host := true }) ∧
      (promoteHost db1 rid).members =
        (db.members.filter (fun m => m.id != member.id)).map g ∧
      (∀ m ∈ db.members.filter (fun m => m.id != member.id),
        m.room_id ≠ rid → g m = m) := by
  have hn1 : (db1.members.map (fun m => m.id)).Nodup := by
    rw [h1]
    exact List.Nodup.sublist ((List.filter_sublist _).map _) hn
  obtain ⟨g, hg, hmem, hloc⟩ := promoteHost_members_shape db1 rid hn1
  exact ⟨g, hg, by rw [hmem, h1], fun m hm h => hloc m (by rw [h1]; exact hm) h⟩

theorem promoteHost_hostCount (db : DB) (rid : Nat)
    (hn : (db.members.map (fun m => m.id)).Nodup)
    (hne : memsOf db rid ≠ [])
    (h0 : (memsOf db rid).countP (fun m => m.is_host) = 0) :
    hostCount (promoteHost db rid) rid = 1 := by
  have hne2 : (memsOf db rid).map (fun m => m.id) ≠ [] := by
    intro hc
    exact hne (List.map_eq_nil.mp hc)
  obtain ⟨i, hmin⟩ := minId?_isSome hne2
  unfold promoteHost
  rw [hmin]
  unfold hostCount memsOf
  show (((db.members.map (fun m =>
      if m.id == i then { m with is_host := true } else m)).filter
      (fun m => m.room_id == rid)).countP (fun m => m.is_host)) = 1
  rw [filter_map_pres (fun m => m.room_id == rid)
    (fun m => if m.id == i then { m with is_host := true } else m)
    (fun x => by by_cases h : (x.id == i) = true <;> simp [h]) db.members]
  exact countP_setHost
    (List.Nodup.sublist ((List.filter_sublist _).map _) hn)
    (minId?_mem hmin) h0

theorem leavePost_hostCount (db : DB) (rid : Nat) (member : RoomMember) (room : Room)
    (hn : (db.members.map (fun m => m.id)).Nodup)
    (hmem : member ∈ db.members) (hmrid : member.room_id = rid)
    (hcnt_len : room.joined_user_count = ((memsOf db rid).length : Int))
    (hhost1 : 0 < room.joined_user_count → hostCount db rid = 1)
    (hdiss0 : room.wait_room_status = WaitRoomStatus.DISSOLUTION →
      room.joined_user_count = 0)
    (hpos : 0 < room.joined_user_count - 1) :
    hostCount (leavePost db rid member room) rid = 1 := by
  have hmemrid : member ∈ memsOf db rid :=
    List.mem_filter.mpr ⟨hmem, by simp [hmrid]⟩
  have hnr : ((memsOf db rid).map (fun m => m.id)).Nodup :=
    List.Nodup.sublist ((List.filter_sublist _).map _) hn
  have hcountP : ((memsOf db rid).filter (fun m => m.id != member.id)).countP
        (fun m => m.is_host) + (if member.is_host = true then 1 else 0) =
      (memsOf db rid).countP (fun m => m.is_host) :=
    countP_filter_ne (fun m => m.id) (fun m => m.is_host) hnr hmemrid
  have hhc : (memsOf db rid).countP (fun m => m.is_host) = 1 := hhost1 (by omega)
  have hndiss : ¬ room.wait_room_status = WaitRoomStatus.DISSOLUTION := by
    intro hD
    have h2 := hdiss0 hD
    omega
  have hlt : ¬ (room.joined_user_count - 1 < 1) := by omega
  have hcomm : ∀ dbx : DB, dbx.members =
        db.members.filter (fun m => m.id != member.id) →
      memsOf dbx rid = (memsOf db rid).filter (fun m => m.id != member.id) := by
    intro dbx hx
    unfold memsOf
    rw [hx]
    exact List.filter_comm _ _ _
  have hlenrm : ((memsOf db rid).filter (fun m => m.id != member.id)).length + 1 =
      (memsOf db rid).length := length_filter_ne (fun m => m.id) hnr hmemrid
  simp only [leavePost]
  rw [if_neg hlt]
  by_cases hhost : member.is_host = true
  · rw [if_pos ⟨hndiss, hhost⟩]
    apply promoteHost_hostCount
    · exact List.Nodup.sublist ((List.filter_sublist _).map _) hn
    · rw [hcomm _ rfl]
      have hlen2 : 0 < ((memsOf db rid).filter (fun m => m.id != member.id)).length := by
        omega
      exact List.ne_nil_of_length_pos hlen2
    · rw [hcomm _ rfl]
      rw [hhost, if_pos rfl] at hcountP
      omega
  · rw [if_neg (fun hc => hhost hc.2)]
    unfold hostCount
    rw [hcomm _ rfl]
    rw [if_neg hhost] at hcountP
    omega

theorem leavePost_rooms (db : DB) (rid : Nat) (member : RoomMember) (room : Room) :
    (leavePost db rid member room).rooms = db.rooms.map (fun r =>
      if r.id == rid then
        { r with joined_user_count := room.joined_user_count - 1,
                 wait_room_status :=
                   if room.joined_user_count - 1 < 1 then WaitRoomStatus.DISSOLUTION
                   else room.wait_room_status }
      else r) := by
  simp only [leavePost]
  split <;> try split
  all_goals first
    | rfl
    | rw [(promoteHost_state _ _).1]

theorem leavePost_frame (db : DB) (rid : Nat) (member : RoomMember) (room : Room) :
    (leavePost db rid member room).next_room_id = db.next_room_id ∧
    (leavePost db rid member room).next_member_id = db.next_member_id ∧
    (leavePost db rid member room).now = db.now := by
  simp only [leavePost]
  split <;> try split
  all_goals first
    | exact ⟨rfl, rfl, rfl⟩
    | exact ⟨(promoteHost_state _ _).2.1, (promoteHost_state _ _).2.2.1,
        (promoteHost_state _ _).2.2.2⟩

theorem RoomOkW_congr {db db2 : DB} {r : Room} (h : memsOf db2 r.id = memsOf db r.id)
    (hw : RoomOkW db r) : RoomOkW db2 r := by
  unfold RoomOkW hostCount at *
  rw [h]
  exact hw

theorem filter_room_erase_ne {l : List RoomMember} {member : RoomMember} {rid rid2 : Nat}
    (hn : (l.map (fun m => m.id)).Nodup) (hmem : member ∈ l)
    (hrid : member.room_id = rid) (hne : rid2 ≠ rid) :
    (l.filter (fun m => m.id != member.id)).filter (fun m => m.room_id == rid2) =
      l.filter (fun m => m.room_id == rid2) := by
  rw [List.filter_comm]
  rw [List.filter_eq_self]
  intro m hm
  have hm2 := List.mem_filter.mp hm
  have hmrid2 : m.room_id = rid2 := by simpa using hm2.2
  simp only [bne_iff_ne, ne_eq]
  intro hid
  have hmeq : m = member := List.inj_on_of_nodup_map hn hm2.1 hmem hid
  exact hne (by rw [← hmrid2, hmeq, hrid])

theorem leavePost_members_shape (db : DB) (rid : Nat) (member : RoomMember) (room : Room)
    (hn : (db.members.map (fun m => m.id)).Nodup) :
    ∃ g : RoomMember → RoomMember,
      (∀ m, g m = m ∨ g m = { m with is_host := true }) ∧
      (leavePost db rid member room).members =
        (db.members.filter (fun m => m.id != member.id)).map g ∧
      (∀ m ∈ db.members.filter (fun m => m.id != member.id),
        m.room_id ≠ rid → g m = m) := by
  simp only [leavePost]
  split <;> try split
  all_goals first
    | exact ⟨fun m => m, fun _ => Or.inl rfl, (map_id_on (fun x _ => rfl)).symm,
        fun _ _ _ => rfl⟩
    | exact promote_shape_applied db rid member hn _ rfl

/-- Elimination principle for a successful leave_room call: the unique
membership row, the unique room row, and the resulting state. -/
theorem leave_room_ok_elim {db db2 : DB} {u rid : Nat}
    (h : leave_room db u rid = .ok db2) :
    ∃ member room,
      db.members.filter (fun m => m.room_id == rid && m.user_id == u) = [member] ∧
      db.rooms.filter (fun r => r.id == rid) = [room] ∧
      db2 = leavePost db rid member room := by
  unfold leave_room at h
  split at h
  next member hmEq =>
    split at h
    next room hrEq =>
      injection h with h
      exact ⟨member, room, hmEq, hrEq, h.symm⟩
    next hr => simp at h
  next hm => simp at h

/-- Master soundness lemma for _leave_room: it preserves the weak invariant,
establishes the full per-room invariant on the target room, leaves the
counters, the clock, every other room and its members unchanged, and removes
exactly the membership row of the leaving user, changing nothing but host
flags elsewhere. -/
theorem leave_room_sound {db db2 : DB} {u rid : Nat}
    (hInv : InvW db) (h : leave_room db u rid = .ok db2) :
    InvW db2 ∧
    (∀ r2 ∈ db2.rooms, r2.id = rid → RoomOk db2 r2) ∧
    db2.next_room_id = db.next_room_id ∧
    db2.next_member_id = db.next_member_id ∧
    db2.now = db.now ∧
    (∀ rid2, rid2 ≠ rid → memsOf db2 rid2 = memsOf db rid2) ∧
    (∀ r2 ∈ db2.rooms, r2.id ≠ rid → r2 ∈ db.rooms) ∧
    (∀ r ∈ db.rooms, r.id ≠ rid → r ∈ db2.rooms) ∧
    (∃ member ∈ db.members, member.user_id = u ∧ member.room_id = rid ∧
      db2.members.map hostless =
        (db.members.filter (fun m => m.id != member.id)).map hostless) := by
  obtain ⟨h0, hROk⟩ := hInv
  obtain ⟨hrn, hmn, hun, hrb, hmb, hre, hnrpos⟩ := h0
  obtain ⟨member, room, hmEq, hrEq, hpost⟩ := leave_room_ok_elim h
  subst hpost
  have hmm := mem_of_filter_singleton hmEq
  have hmm1 : member ∈ db.members := hmm.1
  have hpm := hmm.2
  rw [Bool.and_eq_true] at hpm
  have hmrid : member.room_id = rid := by simpa using hpm.1
  have hmuid : member.user_id = u := by simpa using hpm.2
  have hrmm := mem_of_filter_singleton hrEq
  have hrm1 : room ∈ db.rooms := hrmm.1
  have hrid : room.id = rid := by simpa using hrmm.2
  obtain ⟨hcnt_len, hcnt_max, hmax4, hhost1, hdiss0⟩ := hROk room hrm1
  rw [hrid] at hcnt_len hhost1
  have hrp := leavePost_rooms db rid member room
  have hfr := leavePost_frame db rid member room
  obtain ⟨g, hg, hmems, hloc⟩ := leavePost_members_shape db rid member room hmn
  have hgid : ∀ m, (g m).id = m.id := by
    intro m; rcases hg m with h2 | h2 <;> rw [h2]
  have hguid : ∀ m, (g m).user_id = m.user_id := by
    intro m; rcases hg m with h2 | h2 <;> rw [h2]
  have hgrid : ∀ m, (g m).room_id = m.room_id := by
    intro m; rcases hg m with h2 | h2 <;> rw [h2]
  have hghostless : ∀ m, hostless (g m) = hostless m := by
    intro m
    rcases hg m with h2 | h2
    · rw [h2]
    · rw [h2]; rfl
  have hupdid : ∀ r : Room,
      ((fun r => if r.id == rid then
        { r with joined_user_count := room.joined_user_count - 1,
                 wait_room_status :=
                   if room.joined_user_count - 1 < 1 then WaitRoomStatus.DISSOLUTION
                   else room.wait_room_status }
      else r) r).id = r.id := by
    intro r; by_cases hc : (r.id == rid) = true <;> simp [hc]
  have hrooms_mem : ∀ r2 ∈ (leavePost db rid member room).rooms,
      ∃ r0 ∈ db.rooms, r2 = (if r0.id == rid then
        { r0 with joined_user_count := room.joined_user_count - 1,
                  wait_room_status :=
                    if room.joined_user_count - 1 < 1 then WaitRoomStatus.DISSOLUTION
                    else room.wait_room_status }
      else r0) := by
    intro r2 hr2
    rw [hrp] at hr2
    rcases List.mem_map.mp hr2 with ⟨r0, hr0, he⟩
    exact ⟨r0, hr0, he.symm⟩
  have hmemsne : ∀ rid2, rid2 ≠ rid →
      memsOf (leavePost db rid member room) rid2 = memsOf db rid2 := by
    intro rid2 hne
    unfold memsOf
    rw [hmems]
    rw [filter_map_pres (fun m => m.room_id == rid2) g (fun x => by simp only [hgrid]) _]
    have hgident : ∀ m ∈ (db.members.filter (fun m => m.id != member.id)).filter
        (fun m => m.room_id == rid2), g m = m := by
      intro m hm
      have h2 := List.of_mem_filter hm
      have h3 : m.room_id = rid2 := by simpa using h2
      exact hloc m (List.mem_of_mem_filter hm) (by rw [h3]; exact hne)
    rw [map_id_on hgident]
    exact filter_room_erase_ne hmn hmm1 hmrid hne
  have hcol_id : (leavePost db rid member room).members.map (fun m => m.id) =
      (db.members.filter (fun m => m.id != member.id)).map (fun m => m.id) := by
    rw [hmems]; exact map_map_col g _ hgid _
  have hcol_user : (leavePost db rid member room).members.map (fun m => m.user_id) =
      (db.members.filter (fun m => m.id != member.id)).map (fun m => m.user_id) := by
    rw [hmems]; exact map_map_col g _ hguid _
  have hmemrid : member ∈ memsOf db rid :=
    List.mem_filter.mpr ⟨hmm1, by simp [hmrid]⟩
  have hnr : ((memsOf db rid).map (fun m => m.id)).Nodup :=
    List.Nodup.sublist ((List.filter_sublist _).map _) hmn
  have hlenrm : ((memsOf db rid).filter (fun m => m.id != member.id)).length + 1 =
      (memsOf db rid).length := length_filter_ne (fun m => m.id) hnr hmemrid
  have hms2 : memsOf (leavePost db rid member room) rid =
      ((memsOf db rid).filter (fun m => m.id != member.id)).map g := by
    unfold memsOf
    rw [hmems, filter_map_pres (fun m => m.room_id == rid) g (fun x => by simp only [hgrid]) _]
    rw [List.filter_comm]
  have hlen2 : (memsOf (leavePost db rid member room) rid).length + 1 =
      (memsOf db rid).length := by
    rw [hms2, List.length_map]; exact hlenrm
  have htarget : ∀ r2 ∈ (leavePost db rid member room).rooms, r2.id = rid →
      RoomOk (leavePost db rid member room) r2 := by
    intro r2 hr2 hr2id
    obtain ⟨r0, hr0, he⟩ := hrooms_mem r2 hr2
    by_cases hcase : (r0.id == rid) = true
    · rw [if_pos hcase] at he
      have hr0id : r0.id = rid := by simpa using hcase
      have hr0room : r0 = room :=
        List.inj_on_of_nodup_map hrn hr0 hrm1 (by rw [hr0id, hrid])
      rw [hr0room] at he
      have hjr2 : r2.joined_user_count = room.joined_user_count - 1 := by rw [he]
      have hmaxr2 : r2.max_user_count = room.max_user_count := by rw [he]
      have hstatr2 : r2.wait_room_status =
          (if room.joined_user_count - 1 < 1 then WaitRoomStatus.DISSOLUTION
           else room.wait_room_status) := by rw [he]
      refine ⟨⟨?_, ?_, ?_, ?_, ?_⟩, ?_⟩
      · rw [hjr2, hr2id]; omega
      · rw [hjr2, hmaxr2]; omega
      · rw [hmaxr2]; exact hmax4
      · rw [hjr2, hr2id]
        intro hpos
        exact leavePost_hostCount db rid member room hmn hmm1 hmrid hcnt_len
          hhost1 hdiss0 hpos
      · rw [hstatr2, hjr2]
        intro hD
        by_cases hclt : room.joined_user_count - 1 < 1
        · omega
        · rw [if_neg hclt] at hD
          have h2 := hdiss0 hD
          omega
      · rw [hjr2, hstatr2]
        intro h00
        rw [if_pos (by omega)]
    · rw [if_neg hcase] at he
      exfalso
      have : r0.id = rid := by rw [← he]; exact hr2id
      simp [this] at hcase
  refine ⟨⟨⟨?_, ?_, ?_, ?_, ?_, ?_, ?_⟩, ?_⟩, htarget, hfr.1, hfr.2.1, hfr.2.2,
    hmemsne, ?_, ?_, ⟨member, hmm1, hmuid, hmrid, ?_⟩⟩
  · rw [hrp, map_map_col _ _ hupdid]
    exact hrn
  · rw [hcol_id]
    exact List.Nodup.sublist ((List.filter_sublist _).map _) hmn
  · rw [hcol_user]
    exact List.Nodup.sublist ((List.filter_sublist _).map _) hun
  · intro r2 hr2
    obtain ⟨r0, hr0, he⟩ := hrooms_mem r2 hr2
    have hid : r2.id = r0.id := by
      rw [he]; by_cases hc : (r0.id == rid) = true <;> simp [hc]
    rw [hid, hfr.1]
    exact hrb r0 hr0
  · intro m2 hm2
    rw [hmems] at hm2
    rcases List.mem_map.mp hm2 with ⟨m, hm, he⟩
    rw [← he, hgid, hfr.2.1]
    exact hmb m (List.mem_of_mem_filter hm)
  · intro m2 hm2
    rw [hmems] at hm2
    rcases List.mem_map.mp hm2 with ⟨m, hm, he⟩
    rcases hre m (List.mem_of_mem_filter hm) with ⟨r, hr, hrm⟩
    refine ⟨(fun r => if r.id == rid then
        { r with joined_user_count := room.joined_user_count - 1,
                 wait_room_status :=
                   if room.joined_user_count - 1 < 1 then WaitRoomStatus.DISSOLUTION
                   else room.wait_room_status }
      else r) r, ?_, ?_⟩
    · rw [hrp]
      exact List.mem_map_of_mem _ hr
    · rw [hupdid, hrm, ← he, hgrid]
  · rw [hfr.1]
    exact hnrpos
  · intro r2 hr2
    by_cases hc2 : r2.id = rid
    · exact (htarget r2 hr2 hc2).1
    · obtain ⟨r0, hr0, he⟩ := hrooms_mem r2 hr2
      by_cases hcase : (r0.id == rid) = true
      · exfalso
        apply hc2
        rw [he, if_pos hcase]
        simpa using hcase
      · rw [if_neg hcase] at he
        have hc0 : r0.id ≠ rid := by rw [← he]; exact hc2
        rw [he]
        exact RoomOkW_congr (hmemsne r0.id hc0) (hROk r0 hr0)
  · intro r2 hr2 hne2
    obtain ⟨r0, hr0, he⟩ := hrooms_mem r2 hr2
    by_cases hcase : (r0.id == rid) = true
    · exfalso
      apply hne2
      rw [he, if_pos hcase]
      simpa using hcase
    · rw [if_neg hcase] at he
      exact he ▸ hr0
  · intro r hr hner
    rw [hrp]
    refine List.mem_map.mpr ⟨r, hr, ?_⟩
    have hc : ¬ ((r.id == rid) = true) := by simpa using hner
    simp [hc]
  · rw [hmems]
    exact map_map_col g hostless hghostless _

theorem RoomOk_congr {db db2 : DB} {r : Room} (h : memsOf db2 r.id = memsOf db r.id)
    (hw : RoomOk db r) : RoomOk db2 r :=
  ⟨RoomOkW_congr h hw.1, hw.2⟩

/-- Under a unique user column the stale-membership query of
_valitate_duplicate_member returns no row or exactly one row. -/
theorem valitate_cases {db : DB} (u rid : Nat)
    (hun : (db.members.map (fun m => m.user_id)).Nodup) :
    db.members.filter (fun m => m.user_id == u && m.room_id != rid) = [] ∨
    ∃ m0, db.members.filter (fun m => m.user_id == u && m.room_id != rid) = [m0] ∧
      m0 ∈ db.members ∧ m0.user_id = u ∧ m0.room_id ≠ rid := by
  rcases @filter_nil_or_singleton RoomMember Nat (fun m => m.user_id)
      (fun m => m.user_id == u && m.room_id != rid) db.members hun u
      (fun x hxm hx => by
        rw [Bool.and_eq_true] at hx
        simpa using hx.1) with h | ⟨m0, h⟩
  · exact Or.inl h
  · have hm := mem_of_filter_singleton h
    have hp := hm.2
    rw [Bool.and_eq_true] at hp
    exact Or.inr ⟨m0, h, hm.1, by simpa using hp.1, by simpa using hp.2⟩

/-- Soundness of _valitate_duplicate_member: the weak invariant is preserved,
the full per-room invariant survives on every room other than the excluded
one, the excluded room and its members are untouched, and afterwards the user
holds no membership outside the excluded room. -/
theorem valitate_sound {db db1 : DB} {u rid : Nat}
    (hInv : InvW db)
    (hRok2 : ∀ r ∈ db.rooms, r.id ≠ rid → RoomOk db r)
    (h : valitate_duplicate_member db u rid = .ok db1) :
    InvW db1 ∧
    (∀ r ∈ db1.rooms, r.id ≠ rid → RoomOk db1 r) ∧
    db1.next_room_id = db.next_room_id ∧
    db1.next_member_id = db.next_member_id ∧
    db1.now = db.now ∧
    memsOf db1 rid = memsOf db rid ∧
    (∀ r ∈ db.rooms, r.id = rid → r ∈ db1.rooms) ∧
    (∀ r ∈ db1.rooms, r.id = rid → r ∈ db.rooms) ∧
    (∀ m ∈ db1.members, m.user_id = u → m.room_id = rid) := by
  have hun := hInv.1.2.2.1
  rcases valitate_cases u rid hun with hfil | ⟨m0, hfil, hm0mem, hm0u, hm0r⟩
  · unfold valitate_duplicate_member at h
    rw [hfil] at h
    simp only [List.map_nil] at h
    unfold leavePairs at h
    injection h with h
    subst h
    have hnone := List.filter_eq_nil.mp hfil
    refine ⟨hInv, hRok2, rfl, rfl, rfl, rfl, fun r hr _ => hr, fun r hr _ => hr,
      fun m hm hmu => ?_⟩
    have h2 := hnone m hm
    rw [Bool.and_eq_true] at h2
    by_contra hne
    exact h2 ⟨by simpa using hmu, by simpa using hne⟩
  · unfold valitate_duplicate_member at h
    rw [hfil] at h
    simp only [List.map_cons, List.map_nil] at h
    unfold leavePairs at h
    split at h
    · next dbL hleave =>
      unfold leavePairs at h
      injection h with h
      subst h
      obtain ⟨hIW, htgt, hnr, hnm, hnow, hmne, hback, hfwd, hmember⟩ :=
        leave_room_sound ⟨hInv.1, hInv.2⟩ hleave
      have hridne : rid ≠ m0.room_id := fun he => hm0r he.symm
      refine ⟨hIW, ?_, hnr, hnm, hnow, hmne rid hridne,
        fun r hr hrid => hfwd r hr (fun he => hm0r (hrid ▸ he).symm),
        fun r hr hrid => hback r hr (fun he => hm0r (hrid ▸ he).symm), ?_⟩
      · intro r hr hne
        by_cases hc : r.id = m0.room_id
        · exact htgt r hr hc
        · have hrdb : r ∈ db.rooms := hback r hr hc
          exact RoomOk_congr (hmne r.id hc) (hRok2 r hrdb hne)
      · intro m hm hmu
        exfalso
        obtain ⟨member, hmemmem, hmemu, hmemr, hhl⟩ := hmember
        have hmh := List.mem_map_of_mem hostless hm
        rw [hhl] at hmh
        rcases List.mem_map.mp hmh with ⟨m2, hm2, he2⟩
        have hm2u : m2.user_id = m.user_id := by
          have h3 := congrArg RoomMember.user_id he2
          simpa [hostless] using h3
        have hm2mem := List.mem_of_mem_filter hm2
        have hm2id := List.of_mem_filter hm2
        have hmm2 : m2 = member :=
          List.inj_on_of_nodup_map hun hm2mem hmemmem (by rw [hm2u, hmu, hmemu])
        rw [hmm2] at hm2id
        simp at hm2id
    · exact absurd h (by simp)

theorem find?_id_eq_some {l : List Room} {r : Room} {rid : Nat}
    (hn : (l.map (fun r => r.id)).Nodup) (hr : r ∈ l)
    (hid : r.id = rid) : l.find? (fun r => r.id == rid) = some r := by
  induction l with
  | nil => cases hr
  | cons x xs ih =>
    rw [List.map_cons, List.nodup_cons] at hn
    rcases List.mem_cons.mp hr with rfl | h1
    · rw [List.find?_cons]
      have hx : (r.id == rid) = true := by simpa using hid
      rw [hx]
    · rw [List.find?_cons]
      have hx : (x.id == rid) = false := by
        simp only [beq_eq_false_iff_ne, ne_eq]
        intro he
        have hxr : x.id = r.id := by rw [he, hid]
        exact hn.1 (hxr ▸ List.mem_map_of_mem _ h1)
      rw [hx]
      exact ih hn.2 h1

theorem roomOf_eq_some {db : DB} {r : Room} {rid : Nat}
    (hn : (db.rooms.map (fun r => r.id)).Nodup) (hr : r ∈ db.rooms)
    (hid : r.id = rid) : roomOf db rid = some r := by
  unfold roomOf
  exact find?_id_eq_some hn hr hid

/-- The room row filter returns exactly one row for an existing room id. -/
theorem rooms_filter_singleton {db : DB} {r : Room} {rid : Nat}
    (hn : (db.rooms.map (fun r => r.id)).Nodup) (hr : r ∈ db.rooms)
    (hid : r.id = rid) : db.rooms.filter (fun r => r.id == rid) = [r] := by
  apply filter_eq_singleton_of_unique (List.Nodup.of_map _ hn) hr (by simpa using hid)
  intro x hx hpx
  exact List.inj_on_of_nodup_map hn hx hr (by rw [hid]; simpa using hpx)

/-- The membership row filter of _leave_room returns exactly one row when the
user column is unique and the user belongs to the room. -/
theorem member_filter_singleton {db : DB} {m : RoomMember} {u rid : Nat}
    (hnid : (db.members.map (fun m => m.id)).Nodup)
    (hnu : (db.members.map (fun m => m.user_id)).Nodup)
    (hm : m ∈ db.members) (hmu : m.user_id = u) (hmr : m.room_id = rid) :
    db.members.filter (fun m => m.room_id == rid && m.user_id == u) = [m] := by
  apply filter_eq_singleton_of_unique (List.Nodup.of_map _ hnid) hm
    (by simp [hmu, hmr])
  intro x hx hpx
  rw [Bool.and_eq_true] at hpx
  exact List.inj_on_of_nodup_map hnu hx hm (by rw [hmu]; simpa using hpx.2)

/-- Progress for _leave_room: an existing membership row of an existing room
leaves successfully. -/
theorem leave_room_progress {db : DB} {m : RoomMember} {u rid : Nat}
    (hInv0 : Inv0 db) (hm : m ∈ db.members) (hmu : m.user_id = u)
    (hmr : m.room_id = rid) :
    ∃ room, room ∈ db.rooms ∧ room.id = rid ∧
      leave_room db u rid = .ok (leavePost db rid m room) := by
  obtain ⟨hrn, hmn, hun, _, _, hre, _⟩ := hInv0
  obtain ⟨room, hroom, hroomid⟩ := hre m hm
  refine ⟨room, hroom, by rw [hroomid, hmr], ?_⟩
  unfold leave_room
  rw [member_filter_singleton hmn hun hm hmu hmr,
    rooms_filter_singleton hrn hroom (by rw [hroomid, hmr])]

/-- Full invariant preservation for _leave_room. -/
theorem leave_room_inv {db db2 : DB} {u rid : Nat}
    (hInv : Inv db) (h : leave_room db u rid = .ok db2) : Inv db2 := by
  obtain ⟨hIW, htgt, _, _, _, hmne, hback, _, _⟩ :=
    leave_room_sound ⟨hInv.1, fun r hr => (hInv.2 r hr).1⟩ h
  refine ⟨hIW.1, fun r hr => ?_⟩
  by_cases hc : r.id = rid
  · exact htgt r hr hc
  · exact RoomOk_congr (hmne r.id hc) (hInv.2 r (hback r hr hc))

/-- Full invariant preservation for a sequence of _leave_room calls. -/
theorem leavePairs_inv {ps : List (Nat × Nat)} {db db2 : DB}
    (hInv : Inv db) (h : leavePairs ps db = .ok db2) : Inv db2 := by
  induction ps generalizing db with
  | nil =>
    unfold leavePairs at h
    injection h with h
    exact h ▸ hInv
  | cons p ps ih =>
    obtain ⟨pu, pr⟩ := p
    unfold leavePairs at h
    split at h
    · next dbm hleave => exact ih (leave_room_inv hInv hleave) h
    · exact absurd h (by simp)

/-- Progress for _valitate_duplicate_member under the weak invariant. -/
theorem valitate_progress (db : DB) (u rid : Nat) (hInv : InvW db) :
    ∃ db1, valitate_duplicate_member db u rid = .ok db1 := by
  obtain ⟨⟨hrn, hmn, hun, hrb, hmb, hre, hnrpos⟩, hROk⟩ := hInv
  rcases valitate_cases u rid hun with hfil | ⟨m0, hfil, hm0mem, hm0u, hm0r⟩
  · refine ⟨db, ?_⟩
    unfold valitate_duplicate_member
    rw [hfil]
    rfl
  · obtain ⟨room, _, _, hok⟩ :=
      leave_room_progress ⟨hrn, hmn, hun, hrb, hmb, hre, hnrpos⟩ hm0mem hm0u rfl
    refine ⟨leavePost db m0.room_id m0 room, ?_⟩
    unfold valitate_duplicate_member
    rw [hfil]
    simp only [List.map_cons, List.map_nil]
    unfold leavePairs
    rw [hok]
    rfl

/-- Elimination principle for a successful _join_room call: the eviction step
succeeded, and the result is one of the four source branches (idempotent OK,
DISBANDED, ROOM_FULL, or the counted insert). -/
theorem join_room_core_ok_elim {db : DB} {u rid : Nat} {d : LiveDifficulty}
    {hostFlag : Bool} {res : JoinRoomResult} {db2 : DB}
    (h : join_room_core db u rid d hostFlag = .ok (res, db2)) :
    ∃ db1, valitate_duplicate_member db u rid = .ok db1 ∧
      ((∃ m, db1.members.filter (fun m => m.user_id == u && m.room_id == rid) = [m] ∧
          res = JoinRoomResult.OK ∧ db2 = db1) ∨
       (db1.members.filter (fun m => m.user_id == u && m.room_id == rid) = [] ∧
        ∃ room, db1.rooms.filter (fun r => r.id == rid) = [room] ∧
          ((room.wait_room_status ≠ WaitRoomStatus.WATING ∧
              res = JoinRoomResult.DISBANDED ∧ db2 = db1) ∨
           (room.wait_room_status = WaitRoomStatus.WATING ∧
              room.max_user_count ≤ room.joined_user_count ∧
              res = JoinRoomResult.ROOM_FULL ∧ db2 = db1) ∨
           (room.wait_room_status = WaitRoomStatus.WATING ∧
              room.joined_user_count < room.max_user_count ∧
              res = JoinRoomResult.OK ∧
              db2 = joinInsert db1 u rid d hostFlag)))) := by
  unfold join_room_core at h
  split at h
  · exact absurd h (by simp)
  next db1 hval =>
    refine ⟨db1, hval, ?_⟩
    split at h
    · next hmfil =>
      right
      refine ⟨hmfil, ?_⟩
      split at h
      · next room hrfil =>
        refine ⟨room, hrfil, ?_⟩
        split at h
        · next hstat =>
          injection h with h
          injection h with h1 h2
          exact Or.inl ⟨hstat, h1.symm, h2.symm⟩
        · next hstat =>
          split at h
          · next hfull =>
            injection h with h
            injection h with h1 h2
            exact Or.inr (Or.inl ⟨not_ne_iff.mp hstat, hfull, h1.symm, h2.symm⟩)
          · next hfull =>
            injection h with h
            injection h with h1 h2
            exact Or.inr (Or.inr ⟨not_ne_iff.mp hstat, by omega, h1.symm, h2.symm⟩)
      · exact absurd h (by simp)
    · next m hmfil =>
      injection h with h
      injection h with h1 h2
      exact Or.inl ⟨m, hmfil, h1.symm, h2.symm⟩
    · exact absurd h (by simp)

/-- Soundness of the insert branch of _join_room: starting from a weakly
well-formed state whose other rooms satisfy the full per-room invariant, a
WATING target room with a free seat, a user without any membership row, and a
host count matching the inserted flag, the insert yields a fully invariant
state, appends exactly one membership row to the target room, and leaves
every other room and membership untouched. -/
theorem joinInsert_sound {db1 : DB} {u rid : Nat} {d : LiveDifficulty}
    {hostFlag : Bool} {room : Room}
    (hInv : InvW db1)
    (hRokOther : ∀ r ∈ db1.rooms, r.id ≠ rid → RoomOk db1 r)
    (hroommem : room ∈ db1.rooms) (hrid : room.id = rid)
    (hwat : room.wait_room_status = WaitRoomStatus.WATING)
    (hlt : room.joined_user_count < room.max_user_count)
    (hnouser : ∀ m ∈ db1.members, m.user_id ≠ u)
    (hhc : hostCount db1 rid = (if hostFlag = true then 0 else 1)) :
    Inv (joinInsert db1 u rid d hostFlag) ∧
    memsOf (joinInsert db1 u rid d hostFlag) rid =
      memsOf db1 rid ++
        [{ id := db1.next_member_id, user_id := u, room_id := rid,
           select_difficulty := d, is_host := hostFlag,
           judge_count_list := none, score := none,
           ttl := some (db1.now + TTL_POLLING_INTERVAL) }] ∧
    (∀ rid2, rid2 ≠ rid →
      memsOf (joinInsert db1 u rid d hostFlag) rid2 = memsOf db1 rid2) ∧
    { room with joined_user_count := room.joined_user_count + 1 } ∈
      (joinInsert db1 u rid d hostFlag).rooms ∧
    (∀ r ∈ (joinInsert db1 u rid d hostFlag).rooms, r.id ≠ rid → r ∈ db1.rooms) ∧
    (joinInsert db1 u rid d hostFlag).next_room_id = db1.next_room_id ∧
    (joinInsert db1 u rid d hostFlag).now = db1.now := by
  obtain ⟨⟨hrn, hmn, hun, hrb, hmb, hre, hnrpos⟩, hROkW⟩ := hInv
  obtain ⟨hcnt_len, hcnt_max, hmax4, hhost1, hdiss0⟩ := hROkW room hroommem
  rw [hrid] at hcnt_len hhost1
  have hmembers : (joinInsert db1 u rid d hostFlag).members =
      db1.members ++
        [{ id := db1.next_member_id, user_id := u, room_id := rid,
           select_difficulty := d, is_host := hostFlag,
           judge_count_list := none, score := none,
           ttl := some (db1.now + TTL_POLLING_INTERVAL) }] := rfl
  have hrooms : (joinInsert db1 u rid d hostFlag).rooms =
      db1.rooms.map (fun r =>
        if r.id == rid then { r with joined_user_count := r.joined_user_count + 1 }
        else r) := rfl
  have hupdid : ∀ r : Room,
      ((fun r => if r.id == rid then
          { r with joined_user_count := r.joined_user_count + 1 } else r) r).id =
        r.id := by
    intro r; by_cases hc : (r.id == rid) = true <;> simp [hc]
  have hmsrid : memsOf (joinInsert db1 u rid d hostFlag) rid =
      memsOf db1 rid ++
        [{ id := db1.next_member_id, user_id := u, room_id := rid,
           select_difficulty := d, is_host := hostFlag,
           judge_count_list := none, score := none,
           ttl := some (db1.now + TTL_POLLING_INTERVAL) }] := by
    unfold memsOf
    rw [hmembers, List.filter_append]
    congr 1
    simp
  have hmsne : ∀ rid2, rid2 ≠ rid →
      memsOf (joinInsert db1 u rid d hostFlag) rid2 = memsOf db1 rid2 := by
    intro rid2 hne
    unfold memsOf
    rw [hmembers, List.filter_append]
    have h2 : (rid == rid2) = false := by
      simp only [beq_eq_false_iff_ne, ne_eq]
      exact fun he => hne he.symm
    simp [h2]
  have hrooms_mem : ∀ r2 ∈ (joinInsert db1 u rid d hostFlag).rooms,
      ∃ r0 ∈ db1.rooms, r2 = (if r0.id == rid then
        { r0 with joined_user_count := r0.joined_user_count + 1 } else r0) := by
    intro r2 hr2
    rw [hrooms] at hr2
    rcases List.mem_map.mp hr2 with ⟨r0, hr0, he⟩
    exact ⟨r0, hr0, he.symm⟩
  have htargetmem : { room with joined_user_count := room.joined_user_count + 1 } ∈
      (joinInsert db1 u rid d hostFlag).rooms := by
    rw [hrooms]
    refine List.mem_map.mpr ⟨room, hroommem, ?_⟩
    have hc : (room.id == rid) = true := by simpa using hrid
    simp [hc]
  have hback : ∀ r ∈ (joinInsert db1 u rid d hostFlag).rooms,
      r.id ≠ rid → r ∈ db1.rooms := by
    intro r2 hr2 hne
    obtain ⟨r0, hr0, he⟩ := hrooms_mem r2 hr2
    by_cases hc : (r0.id == rid) = true
    · exfalso
      apply hne
      rw [he, if_pos hc]
      simpa using hc
    · rw [if_neg hc] at he
      exact he ▸ hr0
  have hlenpos : room.joined_user_count = ((memsOf db1 rid).length : Int) := hcnt_len
  refine ⟨⟨⟨?_, ?_, ?_, ?_, ?_, ?_, ?_⟩, ?_⟩, hmsrid, hmsne, htargetmem, hback, rfl, rfl⟩
  · rw [hrooms, map_map_col _ _ hupdid]
    exact hrn
  · rw [hmembers, List.map_append]
    rw [List.nodup_append]
    refine ⟨hmn, by simp, ?_⟩
    intro x hx
    rcases List.mem_map.mp hx with ⟨m, hm, he⟩
    simp only [List.map_cons, List.map_nil, List.mem_singleton]
    intro he2
    have h3 := hmb m hm
    omega
  · rw [hmembers, List.map_append]
    rw [List.nodup_append]
    refine ⟨hun, by simp, ?_⟩
    intro x hx
    rcases List.mem_map.mp hx with ⟨m, hm, he⟩
    simp only [List.map_cons, List.map_nil, List.mem_singleton]
    intro he2
    exact hnouser m hm (he.trans he2)
  · intro r2 hr2
    obtain ⟨r0, hr0, he⟩ := hrooms_mem r2 hr2
    have hid : r2.id = r0.id := by
      rw [he]; by_cases hc : (r0.id == rid) = true <;> simp [hc]
    rw [hid]
    exact hrb r0 hr0
  · intro m2 hm2
    rw [hmembers] at hm2
    rcases List.mem_append.mp hm2 with hm2 | hm2
    · have h3 := hmb m2 hm2
      show m2.id < db1.next_member_id + 1
      omega
    · rcases List.mem_singleton.mp hm2 with rfl
      show db1.next_member_id < db1.next_member_id + 1
      omega
  · intro m2 hm2
    rw [hmembers] at hm2
    rcases List.mem_append.mp hm2 with hm2 | hm2
    · rcases hre m2 hm2 with ⟨r, hr, hrm⟩
      refine ⟨(fun r => if r.id == rid then
          { r with joined_user_count := r.joined_user_count + 1 } else r) r, ?_, ?_⟩
      · rw [hrooms]; exact List.mem_map_of_mem _ hr
      · rw [hupdid]; exact hrm
    · rcases List.mem_singleton.mp hm2 with rfl
      exact ⟨_, htargetmem, by simpa using hrid⟩
  · exact hnrpos
  · intro r2 hr2
    by_cases hc2 : r2.id = rid
    · obtain ⟨r0, hr0, he⟩ := hrooms_mem r2 hr2
      by_cases hc : (r0.id == rid) = true
      · rw [if_pos hc] at he
        have hr0id : r0.id = rid := by simpa using hc
        have hr0room : r0 = room :=
          List.inj_on_of_nodup_map hrn hr0 hroommem (by rw [hr0id, hrid])
        rw [hr0room] at he
        have hjr2 : r2.joined_user_count = room.joined_user_count + 1 := by rw [he]
        have hmaxr2 : r2.max_user_count = room.max_user_count := by rw [he]
        have hstatr2 : r2.wait_room_status = room.wait_room_status := by rw [he]
        refine ⟨⟨?_, ?_, ?_, ?_, ?_⟩, ?_⟩
        · rw [hjr2, hc2, hmsrid, List.length_append]
          simp only [List.length_cons, List.length_nil]
          omega
        · rw [hjr2, hmaxr2]; omega
        · rw [hmaxr2]; exact hmax4
        · intro _
          rw [hc2]
          unfold hostCount
          rw [hmsrid, List.countP_append]
          have hone : List.countP (fun m => m.is_host)
              [({ id := db1.next_member_id, user_id := u, room_id := rid,
                  select_difficulty := d, is_host := hostFlag,
                  judge_count_list := none, score := none,
                  ttl := some (db1.now + TTL_POLLING_INTERVAL) } : RoomMember)] =
              (if hostFlag = true then 1 else 0) := by
            cases hostFlag <;> simp
          rw [hone]
          unfold hostCount at hhc
          rw [hhc]
          cases hostFlag <;> simp
        · rw [hstatr2, hwat]
          intro hD
          cases hD
        · rw [hjr2, hstatr2]
          intro h00
          exfalso
          omega
      · exfalso
        rw [if_neg hc] at he
        exact (by simpa using hc : r0.id ≠ rid) (by rw [← he]; exact hc2)
    · have hr2db1 : r2 ∈ db1.rooms := hback r2 hr2 hc2
      exact RoomOk_congr (hmsne r2.id hc2) (hRokOther r2 hr2db1 hc2)

/-- Full invariant preservation for _join_room.  The target-room hypothesis
has two shapes: an ordinary join (is_host false) into a room satisfying the
full invariant, or the host join performed by create_room into a fresh,
empty, WATING room. -/
theorem join_room_core_inv {db db2 : DB} {u rid : Nat} {d : LiveDifficulty}
    {hostFlag : Bool} {res : JoinRoomResult}
    (hInvW : InvW db)
    (hRok2 : ∀ r ∈ db.rooms, r.id ≠ rid → RoomOk db r)
    (htgt : ∀ r ∈ db.rooms, r.id = rid →
      ((hostFlag = false ∧ RoomOk db r) ∨
       (hostFlag = true ∧ memsOf db rid = [] ∧
         r.wait_room_status = WaitRoomStatus.WATING)))
    (h : join_room_core db u rid d hostFlag = .ok (res, db2)) :
    Inv db2 := by
  obtain ⟨db1, hval, hbr⟩ := join_room_core_ok_elim h
  obtain ⟨hIW1, hRok21, hnr1, hnm1, hnow1, hms1, hfwd1, hback1, huser1⟩ :=
    valitate_sound hInvW hRok2 hval
  have htgt1 : ∀ r ∈ db1.rooms, r.id = rid →
      ((hostFlag = false ∧ RoomOk db1 r) ∨
       (hostFlag = true ∧ memsOf db1 rid = [] ∧
         r.wait_room_status = WaitRoomStatus.WATING)) := by
    intro r hr hid
    have hrdb : r ∈ db.rooms := hback1 r hr hid
    rcases htgt r hrdb hid with ⟨hf, hok⟩ | ⟨hhf, hempty, hwat⟩
    · exact Or.inl ⟨hf, RoomOk_congr (by rw [hid]; exact hms1) hok⟩
    · exact Or.inr ⟨hhf, by rw [hms1]; exact hempty, hwat⟩
  rcases hbr with ⟨m, hmfil, hres, hdb2⟩ | ⟨hmfil, room, hrfil, hcases⟩
  · subst hdb2
    refine ⟨hIW1.1, fun r hr => ?_⟩
    by_cases hc : r.id = rid
    · rcases htgt1 r hr hc with ⟨_, hok⟩ | ⟨_, hempty, _⟩
      · exact hok
      · exfalso
        have hm := mem_of_filter_singleton hmfil
        have hp := hm.2
        rw [Bool.and_eq_true] at hp
        have hmem2 : m ∈ memsOf db2 rid :=
          List.mem_filter.mpr ⟨hm.1, hp.2⟩
        rw [hempty] at hmem2
        cases hmem2
    · exact hRok21 r hr hc
  · have hroomfacts := mem_of_filter_singleton hrfil
    have hroommem : room ∈ db1.rooms := hroomfacts.1
    have hroomid : room.id = rid := by simpa using hroomfacts.2
    have hnodup1 : (db1.rooms.map (fun r => r.id)).Nodup := hIW1.1.1
    rcases hcases with ⟨hstat, hres, hdb2⟩ | ⟨hwat, hfull, hres, hdb2⟩ |
      ⟨hwat, hfree, hres, hdb2⟩
    · subst hdb2
      refine ⟨hIW1.1, fun r hr => ?_⟩
      by_cases hc : r.id = rid
      · have hr_eq : r = room :=
          List.inj_on_of_nodup_map hnodup1 hr hroommem (by rw [hc, hroomid])
        rcases htgt1 r hr hc with ⟨_, hok⟩ | ⟨_, _, hwat2⟩
        · exact hok
        · exact absurd (hr_eq ▸ hwat2) hstat
      · exact hRok21 r hr hc
    · subst hdb2
      refine ⟨hIW1.1, fun r hr => ?_⟩
      by_cases hc : r.id = rid
      · rcases htgt1 r hr hc with ⟨_, hok⟩ | ⟨_, hempty, _⟩
        · exact hok
        · exfalso
          obtain ⟨hcl, _, hm4, _, _⟩ := hIW1.2 room hroommem
          rw [hroomid, hempty] at hcl
          simp at hcl
          omega
      · exact hRok21 r hr hc
    · subst hdb2
      have hnouser : ∀ m ∈ db1.members, m.user_id ≠ u := by
        intro m hm hmu
        have hmr := huser1 m hm hmu
        have hnone := List.filter_eq_nil.mp hmfil m hm
        rw [Bool.and_eq_true] at hnone
        exact hnone ⟨by simpa using hmu, by simpa using hmr⟩
      have hhc : hostCount db1 rid = (if hostFlag = true then 0 else 1) := by
        rcases htgt1 room hroommem hroomid with ⟨hf, hok⟩ | ⟨hhf, hempty, _⟩
        · obtain ⟨⟨hcl, _, _, hhost1, _⟩, hzd⟩ := hok
          rw [hroomid] at hcl hhost1
          have hpos : 0 < room.joined_user_count := by
            rcases Int.lt_or_le 0 room.joined_user_count with hp | hp
            · exact hp
            · exfalso
              have h00 : room.joined_user_count = 0 := by omega
              have := hzd h00
              rw [this] at hwat
              cases hwat
          rw [hf, hhost1 hpos]
          simp
        · rw [hhf]
          unfold hostCount
          rw [hempty]
          rfl
      exact (joinInsert_sound hIW1 hRok21 hroommem hroomid hwat hfree
        hnouser hhc).1

theorem RoomOk_map {db db2 : DB} {r : Room} (f : RoomMember → RoomMember)
    (hfh : ∀ m, (f m).is_host = m.is_host)
    (hms : memsOf db2 r.id = (memsOf db r.id).map f)
    (hok : RoomOk db r) : RoomOk db2 r := by
  obtain ⟨⟨h1, h2, h3, h4, h5⟩, h6⟩ := hok
  refine ⟨⟨?_, h2, h3, ?_, h5⟩, h6⟩
  · rw [hms, List.length_map]; exact h1
  · intro hpos
    unfold hostCount
    rw [hms, List.countP_map]
    have hcongr : List.countP ((fun m => m.is_host) ∘ f) (memsOf db r.id) =
        List.countP (fun m => m.is_host) (memsOf db r.id) :=
      List.countP_congr (fun x _ => by simp [Function.comp_apply, hfh])
    rw [hcongr]
    exact h4 hpos

theorem Inv_map_members {db : DB} (f : RoomMember → RoomMember)
    (hfid : ∀ m, (f m).id = m.id) (hfu : ∀ m, (f m).user_id = m.user_id)
    (hfr : ∀ m, (f m).room_id = m.room_id) (hfh : ∀ m, (f m).is_host = m.is_host)
    (hInv : Inv db) :
    Inv { db with members := db.members.map f } := by
  obtain ⟨⟨hrn, hmn, hun, hrb, hmb, hre, hnrpos⟩, hROk⟩ := hInv
  have hms : ∀ rid, memsOf { db with members := db.members.map f } rid =
      (memsOf db rid).map f := by
    intro rid
    unfold memsOf
    exact filter_map_pres _ f (fun x => by simp only [hfr]) _
  refine ⟨⟨hrn, ?_, ?_, hrb, ?_, ?_, hnrpos⟩, ?_⟩
  · show ((db.members.map f).map (fun m => m.id)).Nodup
    rw [map_map_col f _ hfid]; exact hmn
  · show ((db.members.map f).map (fun m => m.user_id)).Nodup
    rw [map_map_col f _ hfu]; exact hun
  · intro m2 hm2
    rcases List.mem_map.mp hm2 with ⟨m, hm, he⟩
    rw [← he, hfid]
    exact hmb m hm
  · intro m2 hm2
    rcases List.mem_map.mp hm2 with ⟨m, hm, he⟩
    rw [← he, hfr]
    exact hre m hm
  · intro r hr
    exact RoomOk_map f hfh (hms r.id) (hROk r hr)

theorem update_member_ttl_inv {db : DB} {rid : Nat} {uid : Option Nat} {t : Nat}
    (hInv : Inv db) : Inv (update_member_ttl db rid uid t) :=
  Inv_map_members _ (fun m => by split <;> rfl) (fun m => by split <;> rfl)
    (fun m => by split <;> rfl) (fun m => by split <;> rfl) hInv

theorem dissolution_room_inv {db : DB} {rid : Nat} (hInv : Inv db) :
    Inv (dissolution_room db rid) := by
  obtain ⟨⟨hrn, hmn, hun, hrb, hmb, hre, hnrpos⟩, hROk⟩ := hInv
  have hupdid : ∀ r : Room,
      ((fun r => if r.id == rid then
        { r with joined_user_count := 0,
                 wait_room_status := WaitRoomStatus.DISSOLUTION } else r) r).id =
        r.id := fun r => by by_cases hc : (r.id == rid) = true <;> simp [hc]
  have hmsrid : memsOf (dissolution_room db rid) rid = [] := by
    unfold memsOf dissolution_room
    rw [List.filter_eq_nil]
    intro m hm
    have h1 := List.of_mem_filter hm
    simp only [bne_iff_ne, ne_eq] at h1
    simp [h1]
  have hmsne : ∀ rid2, rid2 ≠ rid →
      memsOf (dissolution_room db rid) rid2 = memsOf db rid2 := by
    intro rid2 hne
    unfold memsOf dissolution_room
    rw [List.filter_comm]
    rw [List.filter_eq_self]
    intro m hm
    have h1 : m.room_id = rid2 := by simpa using List.of_mem_filter hm
    simp only [bne_iff_ne, ne_eq]
    rw [h1]
    exact hne
  have hrooms_mem : ∀ r2 ∈ (dissolution_room db rid).rooms,
      ∃ r0 ∈ db.rooms, r2 = (if r0.id == rid then
        { r0 with joined_user_count := 0,
                  wait_room_status := WaitRoomStatus.DISSOLUTION } else r0) := by
    intro r2 hr2
    rcases List.mem_map.mp hr2 with ⟨r0, hr0, he⟩
    exact ⟨r0, hr0, he.symm⟩
  refine ⟨⟨?_, ?_, ?_, ?_, ?_, ?_, hnrpos⟩, ?_⟩
  · show ((db.rooms.map (fun r => if r.id == rid then
        { r with joined_user_count := 0,
                 wait_room_status := WaitRoomStatus.DISSOLUTION } else r)).map
        (fun r => r.id)).Nodup
    rw [map_map_col _ _ hupdid]
    exact hrn
  · exact List.Nodup.sublist ((List.filter_sublist _).map _) hmn
  · exact List.Nodup.sublist ((List.filter_sublist _).map _) hun
  · intro r2 hr2
    obtain ⟨r0, hr0, he⟩ := hrooms_mem r2 hr2
    have hid : r2.id = r0.id := by rw [he, hupdid]
    rw [hid]
    exact hrb r0 hr0
  · intro m2 hm2
    exact hmb m2 (List.mem_of_mem_filter hm2)
  · intro m2 hm2
    rcases hre m2 (List.mem_of_mem_filter hm2) with ⟨r, hr, hrm⟩
    refine ⟨(fun r : Room => if r.id == rid then
        { r with joined_user_count := 0,
                 wait_room_status := WaitRoomStatus.DISSOLUTION } else r) r, ?_, ?_⟩
    · exact List.mem_map_of_mem _ hr
    · rw [hupdid]; exact hrm
  · intro r2 hr2
    obtain ⟨r0, hr0, he⟩ := hrooms_mem r2 hr2
    by_cases hc : (r0.id == rid) = true
    · rw [if_pos hc] at he
      have hid : r2.id = rid := by rw [he]; simpa using hc
      have hj : r2.joined_user_count = 0 := by rw [he]
      have hs : r2.wait_room_status = WaitRoomStatus.DISSOLUTION := by rw [he]
      have hmax : r2.max_user_count = r0.max_user_count := by rw [he]
      obtain ⟨⟨_, _, hm4, _, _⟩, _⟩ := hROk r0 hr0
      refine ⟨⟨?_, ?_, ?_, ?_, ?_⟩, ?_⟩
      · rw [hj, hid, hmsrid]; rfl
      · rw [hj, hmax, hm4]; omega
      · rw [hmax]; exact hm4
      · intro hpos; rw [hj] at hpos; omega
      · intro _; rw [hj]
      · intro _; rw [hs]
    · rw [if_neg hc] at he
      have hid : r2.id ≠ rid := by rw [he]; simpa using hc
      rw [he]
      have hid0 : r0.id ≠ rid := by rw [← he]; exact hid
      exact RoomOk_congr (hmsne r0.id hid0) (hROk r0 hr0)

theorem start_rooms_inv {db : DB} {rid : Nat} (hInv : Inv db) :
    Inv { db with rooms := db.rooms.map (fun r =>
      if r.id == rid && r.wait_room_status == WaitRoomStatus.WATING
      then { r with wait_room_status := WaitRoomStatus.LIVE_START } else r) } := by
  obtain ⟨⟨hrn, hmn, hun, hrb, hmb, hre, hnrpos⟩, hROk⟩ := hInv
  have hupdid : ∀ r : Room,
      ((fun r => if r.id == rid && r.wait_room_status == WaitRoomStatus.WATING
        then { r with wait_room_status := WaitRoomStatus.LIVE_START } else r) r).id =
        r.id := fun r => by
      by_cases hc : (r.id == rid && r.wait_room_status == WaitRoomStatus.WATING) = true <;>
        simp [hc]
  refine ⟨⟨?_, hmn, hun, ?_, hmb, ?_, hnrpos⟩, ?_⟩
  · show ((db.rooms.map (fun r =>
        if r.id == rid && r.wait_room_status == WaitRoomStatus.WATING
        then { r with wait_room_status := WaitRoomStatus.LIVE_START } else r)).map
        (fun r => r.id)).Nodup
    rw [map_map_col _ _ hupdid]
    exact hrn
  · intro r2 hr2
    rcases List.mem_map.mp hr2 with ⟨r0, hr0, he⟩
    have hid : r2.id = r0.id := by rw [← he, hupdid]
    rw [hid]
    exact hrb r0 hr0
  · intro m2 hm2
    rcases hre m2 hm2 with ⟨r, hr, hrm⟩
    refine ⟨_, List.mem_map_of_mem _ hr, ?_⟩
    rw [hupdid]
    exact hrm
  · intro r2 hr2
    rcases List.mem_map.mp hr2 with ⟨r0, hr0, he⟩
    obtain ⟨⟨h1, h2, h3, h4, h5⟩, h6⟩ := hROk r0 hr0
    by_cases hc : (r0.id == rid && r0.wait_room_status == WaitRoomStatus.WATING) = true
    · rw [if_pos hc] at he
      rw [Bool.and_eq_true] at hc
      have hwat : r0.wait_room_status = WaitRoomStatus.WATING := by simpa using hc.2
      refine ⟨⟨?_, ?_, ?_, ?_, ?_⟩, ?_⟩
      · rw [← he]; exact h1
      · rw [← he]; exact h2
      · rw [← he]; exact h3
      · rw [← he]; exact h4
      · rw [← he]
        intro hD
        cases hD
      · rw [← he]
        intro h00
        exfalso
        have hD := h6 h00
        rw [hwat] at hD
        cases hD
    · rw [if_neg hc] at he
      rw [← he]
      exact ⟨⟨h1, h2, h3, h4, h5⟩, h6⟩

theorem join_room_inv {db db2 : DB} {u rid : Nat} {d : LiveDifficulty}
    {res : JoinRoomResult}
    (hInv : Inv db) (h : join_room db u rid d = .ok (res, db2)) : Inv db2 :=
  join_room_core_inv ⟨hInv.1, fun r hr => (hInv.2 r hr).1⟩
    (fun r hr _ => hInv.2 r hr)
    (fun r hr _ => Or.inl ⟨rfl, hInv.2 r hr⟩) h

theorem create_room_inv {db db2 : DB} {u lid : Nat} {d : LiveDifficulty} {rid : Nat}
    (hInv : Inv db) (h : create_room db u lid d = .ok (rid, db2)) : Inv db2 := by
  obtain ⟨⟨hrn, hmn, hun, hrb, hmb, hre, hnrpos⟩, hROk⟩ := hInv
  simp only [create_room] at h
  split at h
  · exact absurd h (by simp)
  next res db2x hcore =>
    injection h with h
    injection h with h1 h2
    subst h2
    subst h1
    have hempty : ∀ rid2, db.next_room_id ≤ rid2 →
        db.members.filter (fun m => m.room_id == rid2) = [] := by
      intro rid2 hle
      rw [List.filter_eq_nil]
      intro m hm hmr
      rcases hre m hm with ⟨r, hr, hrm⟩
      have h3 := (hrb r hr).2
      have h4 : m.room_id = rid2 := by simpa using hmr
      omega
    refine join_room_core_inv ?_ ?_ ?_ hcore
    all_goals dsimp only
    · refine ⟨⟨?_, hmn, hun, ?_, hmb, ?_, by show 0 < db.next_room_id + 1; omega⟩, ?_⟩
      · rw [List.map_append, List.nodup_append]
        refine ⟨hrn, by simp, ?_⟩
        intro x hx
        rcases List.mem_map.mp hx with ⟨r, hr, he⟩
        simp only [List.map_cons, List.map_nil, List.mem_singleton]
        show ¬ x = db.next_room_id
        have h3 := (hrb r hr).2
        omega
      · intro r hr
        rcases List.mem_append.mp hr with hr | hr
        · have h3 := hrb r hr
          exact ⟨h3.1, by show r.id < db.next_room_id + 1; omega⟩
        · rcases List.mem_singleton.mp hr with rfl
          exact ⟨by show 0 < db.next_room_id; omega,
            by show db.next_room_id < db.next_room_id + 1; omega⟩
      · intro m hm
        rcases hre m hm with ⟨r, hr, hrm⟩
        exact ⟨r, List.mem_append.mpr (Or.inl hr), hrm⟩
      · intro r hr
        rcases List.mem_append.mp hr with hr | hr
        · exact (hROk r hr).1
        · rcases List.mem_singleton.mp hr with rfl
          refine ⟨?_, by show (0 : Int) ≤ (4 : Int); omega, rfl,
            fun hx => absurd (show (0 : Int) < 0 from hx) (by omega),
            fun hD => by cases hD⟩
          show (0 : Int) = ((memsOf _ db.next_room_id).length : Int)
          unfold memsOf
          show (0 : Int) = ((db.members.filter
            (fun m => m.room_id == db.next_room_id)).length : Int)
          rw [hempty db.next_room_id (by omega)]
          rfl
    · intro r hr hne
      rcases List.mem_append.mp hr with hr | hr
      · exact hROk r hr
      · rcases List.mem_singleton.mp hr with rfl
        exact absurd rfl hne
    · intro r hr hid
      rcases List.mem_append.mp hr with hr | hr
      · exfalso
        have h3 := (hrb r hr).2
        omega
      · rcases List.mem_singleton.mp hr with rfl
        refine Or.inr ⟨rfl, ?_, rfl⟩
        unfold memsOf
        show db.members.filter (fun m => m.room_id == db.next_room_id) = []
        exact hempty db.next_room_id (by omega)

theorem get_room_info_list_inv {db db2 : DB} {u lid : Nat} {out : List RoomInfo}
    (hInv : Inv db) (h : get_room_info_list db u lid = .ok (out, db2)) : Inv db2 := by
  unfold get_room_info_list at h
  split at h
  · exact absurd h (by simp)
  next db1 hval =>
    injection h with h
    injection h with h1 h2
    subst h2
    obtain ⟨hIW1, hRok21, _, _, _, _, _, _, _⟩ :=
      valitate_sound ⟨hInv.1, fun r hr => (hInv.2 r hr).1⟩
        (fun r hr _ => hInv.2 r hr) hval
    refine ⟨hIW1.1, fun r hr => ?_⟩
    by_cases hc : r.id = 0
    · exfalso
      have h3 := (hIW1.1.2.2.2.1 r hr).1
      omega
    · exact hRok21 r hr hc

theorem start_room_inv {db db2 : DB} {u rid : Nat}
    (hInv : Inv db) (h : start_room db u rid = .ok db2) : Inv db2 := by
  simp only [start_room] at h
  split at h
  · split at h
    · injection h with h
      subst h
      exact start_rooms_inv (update_member_ttl_inv hInv)
    · exact absurd h (by simp)
  · exact absurd h (by simp)

theorem end_room_inv {db db2 : DB} {u rid : Nat} {jl : List Int} {s : Int}
    (hInv : Inv db) (h : end_room db u rid jl s = .ok db2) : Inv db2 := by
  simp only [end_room] at h
  split at h
  · injection h with h
    subst h
    exact Inv_map_members _ (fun m => by split <;> rfl) (fun m => by split <;> rfl)
      (fun m => by split <;> rfl) (fun m => by split <;> rfl)
      (update_member_ttl_inv hInv)
  · exact absurd h (by simp)

theorem get_room_result_inv {db db2 : DB} {u rid : Nat} {out : List ResultUser}
    (hInv : Inv db) (h : get_room_result db u rid = .ok (out, db2)) : Inv db2 := by
  simp only [get_room_result] at h
  split at h
  · split at h
    · injection h with h
      injection h with h1 h2
      subst h2
      exact update_member_ttl_inv hInv
    · split at h
      · injection h with h
        injection h with h1 h2
        subst h2
        exact update_member_ttl_inv hInv
      · injection h with h
        injection h with h1 h2
        subst h2
        exact dissolution_room_inv (update_member_ttl_inv hInv)
  · exact absurd h (by simp)

theorem leave_expired_member_inv {db db2 : DB}
    (hInv : Inv db) (h : leave_expired_member db = .ok db2) : Inv db2 :=
  leavePairs_inv hInv h

theorem tick_inv {db : DB} {t : Nat} (hInv : Inv db) :
    Inv { db with now := db.now + t } := by
  obtain ⟨⟨hrn, hmn, hun, hrb, hmb, hre, hnrpos⟩, hROk⟩ := hInv
  exact ⟨⟨hrn, hmn, hun, hrb, hmb, hre, hnrpos⟩, fun r hr => hROk r hr⟩

/-- One system step preserves the full invariant. -/
theorem step_inv {db db2 : DB} (hInv : Inv db) (h : Step db db2) : Inv db2 := by
  cases h with
  | create _ _ _ _ _ hop => exact create_room_inv hInv hop
  | join _ _ _ _ _ hop => exact join_room_inv hInv hop
  | leave _ _ _ hop => exact leave_room_inv hInv hop
  | list _ _ _ _ hop => exact get_room_info_list_inv hInv hop
  | start _ _ _ hop => exact start_room_inv hInv hop
  | finish _ _ _ _ _ hop => exact end_room_inv hInv hop
  | result _ _ _ _ hop => exact get_room_result_inv hInv hop
  | sweep _ hop => exact leave_expired_member_inv hInv hop
  | tick t => exact tick_inv hInv

/-- The empty database satisfies the invariant. -/
theorem initDB_inv : Inv initDB := by
  refine ⟨⟨?_, ?_, ?_, ?_, ?_, ?_, ?_⟩, ?_⟩ <;> simp [initDB]

/-- Every reachable state satisfies the invariant. -/
theorem reachable_inv {db : DB} (h : Reachable db) : Inv db := by
  induction h with
  | init => exact initDB_inv
  | step db db2 _ hstep ih => exact step_inv ih hstep

/-! Claim theorems. -/

/-- C1: in every state reachable by the core operations (create_room,
join_room, leave_room, start_room, end_room, get_room_result, the expiry
sweep, the room listing and clock advance), every room satisfies
0 <= member_count <= max_count, member_count equals the number of membership
rows of that room, and while member_count > 0 exactly one membership of the
room carries is_host = true. -/
theorem C1_room_invariants (db : DB) (h : Reachable db) :
    ∀ r ∈ db.rooms,
      0 ≤ r.joined_user_count ∧
      r.joined_user_count ≤ r.max_user_count ∧
      r.joined_user_count = ((memsOf db r.id).length : Int) ∧
      (0 < r.joined_user_count →
        (memsOf db r.id).countP (fun m => m.is_host) = 1) := by
  have hInv := reachable_inv h
  intro r hr
  obtain ⟨⟨h1, h2, _, h4, _⟩, _⟩ := hInv.2 r hr
  exact ⟨by rw [h1]; exact Int.natCast_nonneg _, h2, h1, h4⟩

/-- Witness for C1 at the concrete reachable state produced by create_room
from the empty database, instantiated at its single room. -/
theorem C1_room_invariants_witness :
    0 ≤ ({ id := 1, live_id := 1001, joined_user_count := 1, max_user_count := 4,
           wait_room_status := WaitRoomStatus.WATING } : Room).joined_user_count ∧
    ({ id := 1, live_id := 1001, joined_user_count := 1, max_user_count := 4,
       wait_room_status := WaitRoomStatus.WATING } : Room).joined_user_count ≤
      ({ id := 1, live_id := 1001, joined_user_count := 1, max_user_count := 4,
         wait_room_status := WaitRoomStatus.WATING } : Room).max_user_count ∧
    ({ id := 1, live_id := 1001, joined_user_count := 1, max_user_count := 4,
       wait_room_status := WaitRoomStatus.WATING } : Room).joined_user_count =
      ((memsOf dbCreated
        ({ id := 1, live_id := 1001, joined_user_count := 1, max_user_count := 4,
           wait_room_status := WaitRoomStatus.WATING } : Room).id).length : Int) ∧
    (0 < ({ id := 1, live_id := 1001, joined_user_count := 1, max_user_count := 4,
            wait_room_status := WaitRoomStatus.WATING } : Room).joined_user_count →
      (memsOf dbCreated
        ({ id := 1, live_id := 1001, joined_user_count := 1, max_user_count := 4,
           wait_room_status := WaitRoomStatus.WATING } : Room).id).countP
        (fun m => m.is_host) = 1) :=
  C1_room_invariants dbCreated
    (Reachable.step initDB dbCreated Reachable.init
      (Step.create initDB 7 1001 LiveDifficulty.NORMAL 1 dbCreated (by decide)))
    { id := 1, live_id := 1001, joined_user_count := 1, max_user_count := 4,
      wait_room_status := WaitRoomStatus.WATING }
    (by decide)

/-- C10: whenever join_room returns normally its outcome is OK, ROOM_FULL or
DISBANDED; the OTHER_ERROR member of the join outcome enumeration is never
produced. -/
theorem C10_join_never_other_error {db db2 : DB} {u rid : Nat}
    {d : LiveDifficulty} {res : JoinRoomResult}
    (h : join_room db u rid d = .ok (res, db2)) :
    res ≠ JoinRoomResult.OTHER_ERROR := by
  obtain ⟨db1, hval, hbr⟩ := join_room_core_ok_elim h
  rcases hbr with ⟨m, _, hres, _⟩ | ⟨_, room, _, hcases⟩
  · subst hres; decide
  · rcases hcases with ⟨_, hres, _⟩ | ⟨_, _, hres, _⟩ | ⟨_, _, hres, _⟩ <;>
      subst hres <;> decide

/-- Witness for C10 at a concrete successful join. -/
theorem C10_join_never_other_error_witness :
    join_room dbA 9 1 LiveDifficulty.NORMAL = .ok (JoinRoomResult.OK, dbAJoined) ∧
    JoinRoomResult.OK ≠ JoinRoomResult.OTHER_ERROR :=
  ⟨by decide,
   @C10_join_never_other_error dbA dbAJoined 9 1 LiveDifficulty.NORMAL
     JoinRoomResult.OK (by decide)⟩

/-- C8: joining twice with the same user is idempotent: when a membership row
for the user and room already exists, join_room answers OK, inserts no
duplicate membership row and changes no count, indeed the whole database is
unchanged. -/
theorem C8_join_idempotent {db : DB} {u rid : Nat} {d : LiveDifficulty}
    {m : RoomMember}
    (hInv : Inv db) (hm : m ∈ db.members) (hmu : m.user_id = u)
    (hmr : m.room_id = rid) :
    join_room db u rid d = .ok (JoinRoomResult.OK, db) := by
  have hmn := hInv.1.2.1
  have hun := hInv.1.2.2.1
  have hfil0 : db.members.filter (fun x => x.user_id == u && x.room_id != rid) = [] := by
    rw [List.filter_eq_nil]
    intro x hx hpx
    rw [Bool.and_eq_true] at hpx
    have hxu : x.user_id = u := by simpa using hpx.1
    have hxm : x = m := List.inj_on_of_nodup_map hun hx hm (by rw [hxu, hmu])
    have hxne : x.room_id ≠ rid := by simpa using hpx.2
    exact hxne (hxm ▸ hmr)
  have hval : valitate_duplicate_member db u rid = .ok db := by
    unfold valitate_duplicate_member
    rw [hfil0]
    rfl
  have hfil1 : db.members.filter (fun x => x.user_id == u && x.room_id == rid) = [m] := by
    apply filter_eq_singleton_of_unique (List.Nodup.of_map _ hmn) hm
      (by simp [hmu, hmr])
    intro x hx hpx
    rw [Bool.and_eq_true] at hpx
    exact List.inj_on_of_nodup_map hun hx hm (by rw [hmu]; simpa using hpx.1)
  unfold join_room join_room_core
  simp only [hval, hfil1]

/-- Witness for C8: user 7 rejoining the room it already belongs to. -/
theorem C8_join_idempotent_witness :
    Inv dbA ∧ join_room dbA 7 1 LiveDifficulty.NORMAL = .ok (JoinRoomResult.OK, dbA) :=
  ⟨by unfold Inv Inv0 RoomOk RoomOkW; decide,
   @C8_join_idempotent dbA 7 1 LiveDifficulty.NORMAL
     { id := 1, user_id := 7, room_id := 1,
       select_difficulty := LiveDifficulty.NORMAL, is_host := true,
       judge_count_list := none, score := none, ttl := some 5 }
     (by unfold Inv Inv0 RoomOk RoomOkW; decide)
     (by decide) (by decide) (by decide)⟩

/-- The host transfer of _leave_room flags the remaining member of the room
whose id is least. -/
theorem promoteHost_min {db : DB} {rid : Nat}
    (hn : (db.members.map (fun m => m.id)).Nodup)
    (hne : memsOf db rid ≠ []) :
    ∃ p ∈ memsOf (promoteHost db rid) rid, p.is_host = true ∧
      ∀ q ∈ memsOf (promoteHost db rid) rid, p.id ≤ q.id := by
  have hne2 : (memsOf db rid).map (fun m => m.id) ≠ [] := by
    intro hc; exact hne (List.map_eq_nil.mp hc)
  obtain ⟨i, hmin⟩ := minId?_isSome hne2
  have himem := minId?_mem hmin
  rcases List.mem_map.mp himem with ⟨m0, hm0, hm0i⟩
  have hile := minId?_le hmin
  unfold promoteHost
  rw [hmin]
  have hms : memsOf { db with members := db.members.map (fun m =>
      if m.id == i then { m with is_host := true } else m) } rid =
      (memsOf db rid).map (fun m =>
        if m.id == i then { m with is_host := true } else m) := by
    unfold memsOf
    exact filter_map_pres _ _
      (fun x => by by_cases hc : (x.id == i) = true <;> simp [hc]) _
  rw [hms]
  refine ⟨{ m0 with is_host := true }, ?_, rfl, ?_⟩
  · refine List.mem_map.mpr ⟨m0, hm0, ?_⟩
    have hc : (m0.id == i) = true := by simpa using hm0i
    simp [hc]
  · intro q hq
    rcases List.mem_map.mp hq with ⟨x, hx, he⟩
    have hqid : q.id = x.id := by
      rw [← he]; by_cases hc : (x.id == i) = true <;> simp [hc]
    show m0.id ≤ q.id
    rw [hqid, hm0i]
    exact hile x.id (List.mem_map_of_mem _ hx)

/-- C2: for a user who is not already a member of the target room, join_room
answers DISBANDED when the room is not WATING and ROOM_FULL when the room is
full, leaving the target room row and its membership rows unchanged in both
cases, and otherwise increments the count by one, inserts a membership row
with is_host = false and a fresh polling ttl, and answers OK. -/
theorem C2_join_room_cases {db : DB} {u rid : Nat} {d : LiveDifficulty} {room : Room}
    (hInv : Inv db) (hroom : room ∈ db.rooms) (hrid : room.id = rid)
    (hnotmem : ∀ m ∈ db.members, m.user_id = u → m.room_id ≠ rid) :
    (room.wait_room_status ≠ WaitRoomStatus.WATING →
      ∃ db2, join_room db u rid d = .ok (JoinRoomResult.DISBANDED, db2) ∧
        roomOf db2 rid = some room ∧ memsOf db2 rid = memsOf db rid) ∧
    (room.wait_room_status = WaitRoomStatus.WATING →
      room.max_user_count ≤ room.joined_user_count →
      ∃ db2, join_room db u rid d = .ok (JoinRoomResult.ROOM_FULL, db2) ∧
        roomOf db2 rid = some room ∧ memsOf db2 rid = memsOf db rid) ∧
    (room.wait_room_status = WaitRoomStatus.WATING →
      room.joined_user_count < room.max_user_count →
      ∃ db2, join_room db u rid d = .ok (JoinRoomResult.OK, db2) ∧
        roomOf db2 rid =
          some { room with joined_user_count := room.joined_user_count + 1 } ∧
        memsOf db2 rid = memsOf db rid ++
          [{ id := db.next_member_id, user_id := u, room_id := rid,
             select_difficulty := d, is_host := false,
             judge_count_list := none, score := none,
             ttl := some (db.now + TTL_POLLING_INTERVAL) }]) := by
  have hIWdb : InvW db := ⟨hInv.1, fun r hr => (hInv.2 r hr).1⟩
  obtain ⟨db1, hval⟩ := valitate_progress db u rid hIWdb
  obtain ⟨hIW1, hRok21, hnr1, hnm1, hnow1, hms1, hfwd1, hback1, huser1⟩ :=
    valitate_sound hIWdb (fun r hr _ => hInv.2 r hr) hval
  have hroom1 : room ∈ db1.rooms := hfwd1 room hroom hrid
  have hnodup1 : (db1.rooms.map (fun r => r.id)).Nodup := hIW1.1.1
  have hrfil : db1.rooms.filter (fun r => r.id == rid) = [room] :=
    rooms_filter_singleton hnodup1 hroom1 hrid
  have hnouser : ∀ m ∈ db1.members, m.user_id ≠ u := by
    intro m hm hmu
    have hmr := huser1 m hm hmu
    have hmm : m ∈ memsOf db1 rid := List.mem_filter.mpr ⟨hm, by simp [hmr]⟩
    rw [hms1] at hmm
    have hmdb := List.mem_of_mem_filter hmm
    exact hnotmem m hmdb hmu (by simpa using List.of_mem_filter hmm)
  have hmfil : db1.members.filter (fun x => x.user_id == u && x.room_id == rid) = [] := by
    rw [List.filter_eq_nil]
    intro x hx hpx
    rw [Bool.and_eq_true] at hpx
    exact hnouser x hx (by simpa using hpx.1)
  have hOf : roomOf db1 rid = some room := roomOf_eq_some hnodup1 hroom1 hrid
  refine ⟨?_, ?_, ?_⟩
  · intro hstat
    refine ⟨db1, ?_, hOf, hms1⟩
    unfold join_room join_room_core
    simp only [hval, hmfil, hrfil]
    rw [if_pos hstat]
  · intro hwat hfull
    refine ⟨db1, ?_, hOf, hms1⟩
    unfold join_room join_room_core
    simp only [hval, hmfil, hrfil]
    rw [if_neg (fun hc => hc hwat), if_pos hfull]
  · intro hwat hfree
    have hok1 : RoomOk db1 room :=
      RoomOk_congr (by rw [hrid]; exact hms1) (hInv.2 room hroom)
    have hpos : 0 < room.joined_user_count := by
      rcases Int.lt_or_le 0 room.joined_user_count with hp | hp
      · exact hp
      · exfalso
        have hlen := hok1.1.1
        have h00 : room.joined_user_count = 0 := by omega
        have hD := hok1.2 h00
        rw [hwat] at hD
        cases hD
    have hhc : hostCount db1 rid = (if false = true then 0 else 1) := by
      have h1 := hok1.1.2.2.2.1 hpos
      rw [hrid] at h1
      rw [h1]
      simp
    obtain ⟨hInv2, hmsrid, hmsne, htargetmem, hback, hnr2, hnow2⟩ :=
      joinInsert_sound hIW1 hRok21 hroom1 hrid hwat hfree hnouser hhc
    refine ⟨joinInsert db1 u rid d false, ?_, ?_, ?_⟩
    · unfold join_room join_room_core
      simp only [hval, hmfil, hrfil]
      rw [if_neg (fun hc => hc hwat), if_neg (by omega)]
    · exact roomOf_eq_some hInv2.1.1 htargetmem hrid
    · rw [hmsrid, hms1, hnm1, hnow1]

/-- Witness for C2: user 9 joins the non-full WATING room of dbA. -/
theorem C2_join_room_cases_witness :
    Inv dbA ∧
    (∃ db2, join_room dbA 9 1 LiveDifficulty.NORMAL = .ok (JoinRoomResult.OK, db2) ∧
      roomOf db2 1 = some
        { id := 1, live_id := 1001, joined_user_count := 2 + 1,
          max_user_count := 4, wait_room_status := WaitRoomStatus.WATING } ∧
      memsOf db2 1 = memsOf dbA 1 ++
        [{ id := 3, user_id := 9, room_id := 1,
           select_difficulty := LiveDifficulty.NORMAL, is_host := false,
           judge_count_list := none, score := none, ttl := some 5 }]) :=
  ⟨by unfold Inv Inv0 RoomOk RoomOkW; decide,
   (@C2_join_room_cases dbA 9 1 LiveDifficulty.NORMAL
     { id := 1, live_id := 1001, joined_user_count := 2, max_user_count := 4,
       wait_room_status := WaitRoomStatus.WATING }
     (by unfold Inv Inv0 RoomOk RoomOkW; decide)
     (by decide) (by decide) (by decide)).2.2 (by decide) (by decide)⟩

/-- C3: leave_room removes the membership row of the caller and decrements
the joined count of the room; a count dropping below 1 forces status
DISSOLUTION regardless of the prior status; otherwise, when the leaver held
the host flag, the remaining member with the least membership id is promoted,
and exactly one remaining member is host afterwards. -/
theorem C3_leave_room_spec {db : DB} {u rid : Nat} {m : RoomMember}
    (hInv : Inv db) (hm : m ∈ db.members) (hmu : m.user_id = u)
    (hmr : m.room_id = rid) :
    ∃ room db2, room ∈ db.rooms ∧ room.id = rid ∧
      leave_room db u rid = .ok db2 ∧
      (∀ x ∈ db2.members, ¬(x.user_id = u ∧ x.room_id = rid)) ∧
      ((memsOf db2 rid).length : Int) = room.joined_user_count - 1 ∧
      roomOf db2 rid = some
        { room with joined_user_count := room.joined_user_count - 1,
                    wait_room_status :=
                      if room.joined_user_count - 1 < 1 then WaitRoomStatus.DISSOLUTION
                      else room.wait_room_status } ∧
      (1 ≤ room.joined_user_count - 1 → hostCount db2 rid = 1) ∧
      (1 ≤ room.joined_user_count - 1 → m.is_host = true →
        ∃ p ∈ memsOf db2 rid, p.is_host = true ∧
          ∀ q ∈ memsOf db2 rid, p.id ≤ q.id) := by
  obtain ⟨room, hroom, hroomid, hok⟩ := leave_room_progress hInv.1 hm hmu hmr
  have hInv2 : Inv (leavePost db rid m room) := leave_room_inv hInv hok
  obtain ⟨hcl, hcm, hm4, hh1, hd0⟩ := (hInv.2 room hroom).1
  have hd0r := (hInv.2 room hroom).1.2.2.2.2
  rw [hroomid] at hcl
  have hmmem : m ∈ memsOf db rid := List.mem_filter.mpr ⟨hm, by simp [hmr]⟩
  have hnr : ((memsOf db rid).map (fun x => x.id)).Nodup :=
    List.Nodup.sublist ((List.filter_sublist _).map _) hInv.1.2.1
  have hlenrm : ((memsOf db rid).filter (fun x => x.id != m.id)).length + 1 =
      (memsOf db rid).length := length_filter_ne (fun x => x.id) hnr hmmem
  have hrowmem : ({ room with
      joined_user_count := room.joined_user_count - 1,
      wait_room_status :=
        if room.joined_user_count - 1 < 1 then WaitRoomStatus.DISSOLUTION
        else room.wait_room_status } : Room) ∈ (leavePost db rid m room).rooms := by
    rw [leavePost_rooms]
    refine List.mem_map.mpr ⟨room, hroom, ?_⟩
    have hc : (room.id == rid) = true := by simpa using hroomid
    simp [hc]
  have hrowok := hInv2.2 _ hrowmem
  refine ⟨room, leavePost db rid m room, hroom, hroomid, hok, ?_, ?_, ?_, ?_, ?_⟩
  · obtain ⟨_, _, _, _, _, _, _, _, member, hmemmem, hmemu, hmemr, hhl⟩ :=
      leave_room_sound ⟨hInv.1, fun r hr => (hInv.2 r hr).1⟩ hok
    intro x hx hxp
    have hmh := List.mem_map_of_mem hostless hx
    rw [hhl] at hmh
    rcases List.mem_map.mp hmh with ⟨m2, hm2, he2⟩
    have hm2u : m2.user_id = x.user_id := by
      have h3 := congrArg RoomMember.user_id he2
      simpa [hostless] using h3
    have hm2mem := List.mem_of_mem_filter hm2
    have hm2id := List.of_mem_filter hm2
    have hmm2 : m2 = member :=
      List.inj_on_of_nodup_map hInv.1.2.2.1 hm2mem hmemmem
        (by rw [hm2u, hxp.1, hmemu])
    rw [hmm2] at hm2id
    simp at hm2id
  · have h1 := hrowok.1.1
    have hid : ({ room with
        joined_user_count := room.joined_user_count - 1,
        wait_room_status :=
          if room.joined_user_count - 1 < 1 then WaitRoomStatus.DISSOLUTION
          else room.wait_room_status } : Room).id = rid := hroomid
    rw [hid] at h1
    have h2 : room.joined_user_count - 1 =
        ((memsOf (leavePost db rid m room) rid).length : Int) := h1
    exact h2.symm
  · exact roomOf_eq_some hInv2.1.1 hrowmem hroomid
  · intro hcnt
    have h1 := hrowok.1.2.2.2.1 (by show 0 < room.joined_user_count - 1; omega)
    have hid : ({ room with
        joined_user_count := room.joined_user_count - 1,
        wait_room_status :=
          if room.joined_user_count - 1 < 1 then WaitRoomStatus.DISSOLUTION
          else room.wait_room_status } : Room).id = rid := hroomid
    rw [hid] at h1
    exact h1
  · intro hcnt hmhost
    have hndiss : ¬ room.wait_room_status = WaitRoomStatus.DISSOLUTION := by
      intro hD
      have h2 := hd0r hD
      omega
    have hlt : ¬ (room.joined_user_count - 1 < 1) := by omega
    simp only [leavePost]
    rw [if_neg hlt, if_pos ⟨hndiss, hmhost⟩]
    apply promoteHost_min
    · exact List.Nodup.sublist ((List.filter_sublist _).map _) hInv.1.2.1
    · have hcomm : memsOf { db with
          rooms := db.rooms.map (fun r =>
            if r.id == rid then
              { r with joined_user_count := room.joined_user_count - 1,
                       wait_room_status := room.wait_room_status }
            else r),
          members := db.members.filter (fun x => x.id != m.id) } rid =
          (memsOf db rid).filter (fun x => x.id != m.id) := by
        unfold memsOf
        exact List.filter_comm _ _ _
      rw [hcomm]
      apply List.ne_nil_of_length_pos
      omega

/-- Witness for C3: the host user 7 leaves the two-member room of dbA; user 8
with the least remaining membership id becomes host. -/
theorem C3_leave_room_spec_witness :
    Inv dbA ∧
    (∃ room db2, room ∈ dbA.rooms ∧ room.id = 1 ∧
      leave_room dbA 7 1 = .ok db2 ∧
      (∀ x ∈ db2.members, ¬(x.user_id = 7 ∧ x.room_id = 1)) ∧
      ((memsOf db2 1).length : Int) = room.joined_user_count - 1 ∧
      roomOf db2 1 = some
        { room with joined_user_count := room.joined_user_count - 1,
                    wait_room_status :=
                      if room.joined_user_count - 1 < 1 then WaitRoomStatus.DISSOLUTION
                      else room.wait_room_status } ∧
      (1 ≤ room.joined_user_count - 1 → hostCount db2 1 = 1) ∧
      (1 ≤ room.joined_user_count - 1 →
        ({ id := 1, user_id := 7, room_id := 1,
           select_difficulty := LiveDifficulty.NORMAL, is_host := true,
           judge_count_list := none, score := none,
           ttl := some 5 } : RoomMember).is_host = true →
        ∃ p ∈ memsOf db2 1, p.is_host = true ∧
          ∀ q ∈ memsOf db2 1, p.id ≤ q.id)) :=
  ⟨by unfold Inv Inv0 RoomOk RoomOkW; decide,
   @C3_leave_room_spec dbA 7 1
     { id := 1, user_id := 7, room_id := 1,
       select_difficulty := LiveDifficulty.NORMAL, is_host := true,
       judge_count_list := none, score := none, ttl := some 5 }
     (by unfold Inv Inv0 RoomOk RoomOkW; decide)
     (by decide) (by decide) (by decide)⟩

/-- Equal hostless projections agree on the id, user, room and ttl columns. -/
theorem hostless_eq_elim {a b : RoomMember} (h : hostless a = hostless b) :
    a.id = b.id ∧ a.user_id = b.user_id ∧ a.room_id = b.room_id ∧ a.ttl = b.ttl := by
  have h1 : RoomMember.id (hostless a) = RoomMember.id (hostless b) := congrArg _ h
  have h2 : RoomMember.user_id (hostless a) = RoomMember.user_id (hostless b) :=
    congrArg _ h
  have h3 : RoomMember.room_id (hostless a) = RoomMember.room_id (hostless b) :=
    congrArg _ h
  have h4 : RoomMember.ttl (hostless a) = RoomMember.ttl (hostless b) := congrArg _ h
  exact ⟨h1, h2, h3, h4⟩

/-- Expiry only looks at the ttl column. -/
theorem expiredB_congr {n : Nat} {a b : RoomMember} (h : a.ttl = b.ttl) :
    expiredB n a = expiredB n b := by
  unfold expiredB
  rw [h]

/-- Membership transfer along an equality of hostless projections. -/
theorem mem_of_map_hostless {l1 l2 : List RoomMember}
    (h : l1.map hostless = l2.map hostless) {m : RoomMember} (hm : m ∈ l1) :
    ∃ m2 ∈ l2, hostless m2 = hostless m := by
  have h1 : hostless m ∈ l2.map hostless := h ▸ List.mem_map_of_mem hostless hm
  rcases List.mem_map.mp h1 with ⟨m2, hm2, he⟩
  exact ⟨m2, hm2, he⟩

/-- Running _leave_room over a list of expired (user, room) pairs that exactly
covers the expired rows, one pair per user, succeeds, preserves the invariant
and the clock, and leaves no expired row behind. -/
theorem sweep_aux :
    ∀ (L : List (Nat × Nat)) (db : DB), Inv db →
    (∀ p ∈ L, ∃ m ∈ db.members, m.user_id = p.1 ∧ m.room_id = p.2 ∧
      expiredB db.now m = true) →
    (∀ m ∈ db.members, expiredB db.now m = true → (m.user_id, m.room_id) ∈ L) →
    (L.map Prod.fst).Nodup →
    ∃ db2, leavePairs L db = .ok db2 ∧ Inv db2 ∧ db2.now = db.now ∧
      (∀ m ∈ db2.members, expiredB db2.now m = false) := by
  intro L
  induction L with
  | nil =>
    intro db hInv hreal hcov hnd
    refine ⟨db, rfl, hInv, rfl, ?_⟩
    intro m hm
    cases hexp : expiredB db.now m with
    | false => rfl
    | true => exact absurd (hcov m hm hexp) (List.not_mem_nil _)
  | cons p ps ih =>
    obtain ⟨u, r⟩ := p
    intro db hInv hreal hcov hnd
    obtain ⟨m, hmmem, hmu, hmr, hmexp⟩ := hreal (u, r) (List.mem_cons_self _ _)
    obtain ⟨room, hroom, hroomid, hok⟩ := leave_room_progress hInv.1 hmmem hmu hmr
    have hInv1 : Inv (leavePost db r m room) := leave_room_inv hInv hok
    obtain ⟨_, _, _, _, hnow1, _, _, _, member, hmemmem, hmemu, hmemr, hshape⟩ :=
      leave_room_sound ⟨hInv.1, fun rr hr => (hInv.2 rr hr).1⟩ hok
    have hcons : ((u, r).fst :: ps.map Prod.fst).Nodup := hnd
    have hnotmem : (u, r).fst ∉ ps.map Prod.fst := (List.nodup_cons.mp hcons).1
    have hnd2 : (ps.map Prod.fst).Nodup := (List.nodup_cons.mp hcons).2
    have hreal2 : ∀ q ∈ ps, ∃ m2 ∈ (leavePost db r m room).members,
        m2.user_id = q.1 ∧ m2.room_id = q.2 ∧
        expiredB (leavePost db r m room).now m2 = true := by
      intro q hq
      obtain ⟨mp, hmp, hmpu, hmpr, hmpexp⟩ := hreal q (List.mem_cons_of_mem _ hq)
      have hqne : q.1 ≠ u := by
        intro h
        have hq1 : q.1 ∈ ps.map Prod.fst := List.mem_map_of_mem Prod.fst hq
        rw [h] at hq1
        exact hnotmem hq1
      have hidne : (mp.id != member.id) = true := by
        have hne : mp.id ≠ member.id := by
          intro he
          have heq := List.inj_on_of_nodup_map hInv.1.2.1 hmp hmemmem he
          rw [heq] at hmpu
          exact hqne (hmpu.symm.trans hmemu)
        simpa using hne
      have hmpf : mp ∈ db.members.filter (fun x => x.id != member.id) :=
        List.mem_filter.mpr ⟨hmp, hidne⟩
      obtain ⟨m2, hm2, he2⟩ := mem_of_map_hostless hshape.symm hmpf
      obtain ⟨_, hu2, hr2, ht2⟩ := hostless_eq_elim he2
      refine ⟨m2, hm2, hu2.trans hmpu, hr2.trans hmpr, ?_⟩
      rw [hnow1, expiredB_congr ht2]
      exact hmpexp
    have hcov2 : ∀ m2 ∈ (leavePost db r m room).members,
        expiredB (leavePost db r m room).now m2 = true →
        (m2.user_id, m2.room_id) ∈ ps := by
      intro m2 hm2 hexp2
      obtain ⟨m0, hm0f, he0⟩ := mem_of_map_hostless hshape hm2
      have hm0 : m0 ∈ db.members := List.mem_of_mem_filter hm0f
      have hid0 : (m0.id != member.id) = true := by
        have h5 := List.of_mem_filter hm0f
        simpa using h5
      obtain ⟨_, hu0, hr0, ht0⟩ := hostless_eq_elim he0
      have hexp0 : expiredB db.now m0 = true := by
        rw [expiredB_congr ht0, ← hnow1]
        exact hexp2
      rcases List.mem_cons.mp (hcov m0 hm0 hexp0) with heq | hin
      · exfalso
        have hm0u : m0.user_id = member.user_id := by
          have h1 : m0.user_id = u := congrArg Prod.fst heq
          rw [h1, hmemu]
        have heqm := List.inj_on_of_nodup_map hInv.1.2.2.1 hm0 hmemmem hm0u
        rw [heqm] at hid0
        simp at hid0
      · rw [← hu0, ← hr0]
        exact hin
    obtain ⟨db2, hlp, hInv2, hnow2, hnoexp⟩ :=
      ih (leavePost db r m room) hInv1 hreal2 hcov2 hnd2
    refine ⟨db2, ?_, hInv2, hnow2.trans hnow1, hnoexp⟩
    unfold leavePairs
    rw [hok]
    exact hlp

/-- C9: the expiry sweep is by construction a fold of the voluntary leave
algorithm (_leave_room) over the expired (user, room) pairs, it removes every
membership whose ttl deadline has passed, and it is idempotent: an immediate
second sweep at the same instant succeeds and returns the state unchanged. -/
theorem C9_sweep_spec {db : DB} (hInv : Inv db) :
    leave_expired_member db =
      leavePairs ((db.members.filter (expiredB db.now)).map
        (fun m => (m.user_id, m.room_id))) db ∧
    ∃ db2, leave_expired_member db = .ok db2 ∧ Inv db2 ∧ db2.now = db.now ∧
      (∀ m ∈ db2.members, expiredB db2.now m = false) ∧
      leave_expired_member db2 = .ok db2 := by
  refine ⟨rfl, ?_⟩
  have hnd : (((db.members.filter (expiredB db.now)).map
      (fun m => (m.user_id, m.room_id))).map Prod.fst).Nodup := by
    rw [List.map_map]
    have hsub : ((db.members.filter (expiredB db.now)).map
        (fun m => m.user_id)).Nodup :=
      List.Nodup.sublist ((List.filter_sublist _).map _) hInv.1.2.2.1
    simpa [Function.comp] using hsub
  obtain ⟨db2, hlp, hInv2, hnow, hnoexp⟩ :=
    sweep_aux ((db.members.filter (expiredB db.now)).map
      (fun m => (m.user_id, m.room_id))) db hInv
      (by
        intro q hq
        rcases List.mem_map.mp hq with ⟨m, hmf, he⟩
        exact ⟨m, List.mem_of_mem_filter hmf, congrArg Prod.fst he,
          congrArg Prod.snd he, List.of_mem_filter hmf⟩)
      (by
        intro m hm hexp
        exact List.mem_map_of_mem _ (List.mem_filter.mpr ⟨hm, hexp⟩))
      hnd
  refine ⟨db2, hlp, hInv2, hnow, hnoexp, ?_⟩
  unfold leave_expired_member
  have hfil : db2.members.filter (expiredB db2.now) = [] :=
    List.filter_eq_nil_iff.mpr (fun m hm => by simp [hnoexp m hm])
  rw [hfil]
  rfl

/-- Witness for C9: in dbExp the clock stands at 100 and both memberships
carry lapsed ttl values, so the sweep empties and dissolves the room. -/
theorem C9_sweep_spec_witness :
    Inv dbExp ∧
    (leave_expired_member dbExp =
      leavePairs ((dbExp.members.filter (expiredB dbExp.now)).map
        (fun m => (m.user_id, m.room_id))) dbExp ∧
    ∃ db2, leave_expired_member dbExp = .ok db2 ∧ Inv db2 ∧ db2.now = dbExp.now ∧
      (∀ m ∈ db2.members, expiredB db2.now m = false) ∧
      leave_expired_member db2 = .ok db2) :=
  ⟨by unfold Inv Inv0 RoomOk RoomOkW; decide,
   @C9_sweep_spec dbExp (by unfold Inv Inv0 RoomOk RoomOkW; decide)⟩

/-- Counterexample to C5: listing the rooms is not side-effect free.  In dbA
user 7 hosts room 1; get_room_info_list run by user 7 evicts that user from
room 1 (membership row 1 deleted, member 2 promoted to host, count dropped to
1), so both tables differ from dbA afterwards. -/
theorem C5_room_listing_counterexample :
    get_room_info_list dbA 7 0 =
      .ok ([{ room_id := 1, live_id := 1001, joined_user_count := 1,
              max_user_count := 4 }],
        { rooms := [{ id := 1, live_id := 1001, joined_user_count := 1,
                      max_user_count := 4,
                      wait_room_status := WaitRoomStatus.WATING }],
          members := [{ id := 2, user_id := 8, room_id := 1,
                        select_difficulty := LiveDifficulty.HARD, is_host := true,
                        judge_count_list := none, score := none, ttl := some 99 }],
          next_room_id := 2, next_member_id := 3, now := 0 }) ∧
    [({ id := 2, user_id := 8, room_id := 1,
        select_difficulty := LiveDifficulty.HARD, is_host := true,
        judge_count_list := none, score := none, ttl := some 99 } : RoomMember)] ≠
      dbA.members ∧
    [({ id := 1, live_id := 1001, joined_user_count := 1, max_user_count := 4,
        wait_room_status := WaitRoomStatus.WATING } : Room)] ≠ dbA.rooms := by
  exact ⟨by decide, by decide, by decide⟩

/-- C5 (amended): the room-listing operation first evicts the caller from
every room they belong to via the leave algorithm (run with excluded room id
0), then returns exactly the rooms of the post-eviction state with status
WATING and a free seat, restricted to the given live_id when the filter is
nonzero; the state is unchanged only when the caller belongs to no room. -/
theorem C5_room_listing_spec {db : DB} (u l : Nat) (hInv : Inv db) :
    ∃ db1 out,
      valitate_duplicate_member db u 0 = .ok db1 ∧
      get_room_info_list db u l = .ok (out, db1) ∧
      db1.now = db.now ∧
      (∀ m ∈ db1.members, m.user_id ≠ u) ∧
      (∀ info, info ∈ out ↔ ∃ r ∈ db1.rooms,
        r.wait_room_status = WaitRoomStatus.WATING ∧
        r.joined_user_count < r.max_user_count ∧
        (l ≠ 0 → r.live_id = l) ∧
        info = { room_id := r.id, live_id := r.live_id,
                 joined_user_count := r.joined_user_count,
                 max_user_count := r.max_user_count }) ∧
      ((∀ m ∈ db.members, m.user_id ≠ u) → db1 = db) := by
  obtain ⟨db1, hval⟩ := valitate_progress db u 0 ⟨hInv.1, fun r hr => (hInv.2 r hr).1⟩
  obtain ⟨hIW1, hRok1, _, _, hnow1, _, _, _, husr⟩ :=
    valitate_sound ⟨hInv.1, fun r hr => (hInv.2 r hr).1⟩
      (fun r hr _ => hInv.2 r hr) hval
  refine ⟨db1, (db1.rooms.filter (fun r =>
      decide (r.joined_user_count < r.max_user_count) &&
      r.wait_room_status == WaitRoomStatus.WATING &&
      (l == 0 || r.live_id == l))).map
    (fun r => ({ room_id := r.id, live_id := r.live_id,
                 joined_user_count := r.joined_user_count,
                 max_user_count := r.max_user_count } : RoomInfo)),
    hval, ?_, hnow1, ?_, ?_, ?_⟩
  · unfold get_room_info_list
    rw [hval]
  · intro m hm hu
    have h0 := husr m hm hu
    obtain ⟨r, hr, hrid⟩ := hIW1.1.2.2.2.2.2.1 m hm
    have hb := hIW1.1.2.2.2.1 r hr
    omega
  · intro info
    constructor
    · intro hmem
      rcases List.mem_map.mp hmem with ⟨r, hrf, he⟩
      have hrm := List.mem_of_mem_filter hrf
      have hp := List.of_mem_filter hrf
      simp only [Bool.and_eq_true, decide_eq_true_eq, beq_iff_eq,
        Bool.or_eq_true] at hp
      refine ⟨r, hrm, hp.1.2, hp.1.1, ?_, he.symm⟩
      intro hl0
      rcases hp.2 with h | h
      · exact absurd h hl0
      · exact h
    · rintro ⟨r, hr, hst, hlt, hlive, he⟩
      refine List.mem_map.mpr ⟨r, List.mem_filter.mpr ⟨hr, ?_⟩, he.symm⟩
      simp only [Bool.and_eq_true, decide_eq_true_eq, beq_iff_eq,
        Bool.or_eq_true]
      refine ⟨⟨hlt, hst⟩, ?_⟩
      by_cases hl : l = 0
      · exact Or.inl hl
      · exact Or.inr (hlive hl)
  · intro hno
    have hfil : db.members.filter (fun m => m.user_id == u && m.room_id != 0) = [] := by
      rw [List.filter_eq_nil_iff]
      intro m hm
      simp [hno m hm]
    have h2 : valitate_duplicate_member db u 0 = .ok db := by
      unfold valitate_duplicate_member
      rw [hfil]
      rfl
    rw [h2] at hval
    injection hval with h3
    exact h3.symm

/-- Witness for C5 (amended): the listing run by user 7 on dbA. -/
theorem C5_room_listing_spec_witness :
    Inv dbA ∧
    (∃ db1 out,
      valitate_duplicate_member dbA 7 0 = .ok db1 ∧
      get_room_info_list dbA 7 0 = .ok (out, db1) ∧
      db1.now = dbA.now ∧
      (∀ m ∈ db1.members, m.user_id ≠ 7) ∧
      (∀ info, info ∈ out ↔ ∃ r ∈ db1.rooms,
        r.wait_room_status = WaitRoomStatus.WATING ∧
        r.joined_user_count < r.max_user_count ∧
        (0 ≠ 0 → r.live_id = 0) ∧
        info = { room_id := r.id, live_id := r.live_id,
                 joined_user_count := r.joined_user_count,
                 max_user_count := r.max_user_count }) ∧
      ((∀ m ∈ dbA.members, m.user_id ≠ 7) → db1 = dbA)) :=
  ⟨by unfold Inv Inv0 RoomOk RoomOkW; decide,
   @C5_room_listing_spec dbA 7 0 (by unfold Inv Inv0 RoomOk RoomOkW; decide)⟩

/-- Counterexample to C6: start_room refreshes the ttl of EVERY member of the
room, not only the ttl of the caller.  In dbA user 8 is not the caller, yet
the call by user 7 rewrites the ttl of user 8 from some 99 to some 300. -/
theorem C6_ttl_refresh_counterexample :
    start_room dbA 7 1 =
      .ok { rooms := [{ id := 1, live_id := 1001, joined_user_count := 2,
                        max_user_count := 4,
                        wait_room_status := WaitRoomStatus.LIVE_START }],
            members :=
              [{ id := 1, user_id := 7, room_id := 1,
                 select_difficulty := LiveDifficulty.NORMAL, is_host := true,
                 judge_count_list := none, score := none, ttl := some 300 },
               { id := 2, user_id := 8, room_id := 1,
                 select_difficulty := LiveDifficulty.HARD, is_host := false,
                 judge_count_list := none, score := none, ttl := some 300 }],
            next_room_id := 2, next_member_id := 3, now := 0 } ∧
    Except.map (fun db2 => (db2.members.filter (fun m => m.user_id == 8)).map
        (fun m => m.ttl)) (start_room dbA 7 1) ≠
      .ok ((dbA.members.filter (fun m => m.user_id == 8)).map (fun m => m.ttl)) :=
  ⟨by decide, by decide⟩

/-- C6 (amended): start_room and end_room refresh the ttl of every member of
the target room (to the live interval resp. the polling interval); rows of
other rooms are fully unchanged, and the id, user and room columns of every
row are preserved. -/
theorem C6_ttl_refresh_spec {db db2 db3 : DB} {u rid : Nat}
    (jl : List Int) (sc : Int) :
    (start_room db u rid = .ok db2 →
      ∀ m2 ∈ db2.members, ∃ m ∈ db.members,
        m2.id = m.id ∧ m2.user_id = m.user_id ∧ m2.room_id = m.room_id ∧
        (m.room_id = rid → m2.ttl = some (db.now + TTL_LIVE_INTERVAL)) ∧
        (m.room_id ≠ rid → m2 = m)) ∧
    (end_room db u rid jl sc = .ok db3 →
      ∀ m3 ∈ db3.members, ∃ m ∈ db.members,
        m3.id = m.id ∧ m3.user_id = m.user_id ∧ m3.room_id = m.room_id ∧
        (m.room_id = rid → m3.ttl = some (db.now + TTL_POLLING_INTERVAL)) ∧
        (m.room_id ≠ rid → m3 = m)) := by
  constructor
  · intro h
    simp only [start_room] at h
    split at h
    · split at h
      · injection h with h
        subst h
        intro m2 hm2
        have hm2b : m2 ∈ db.members.map (fun m =>
            if m.room_id == rid
            then { m with ttl := some (db.now + TTL_LIVE_INTERVAL) } else m) := hm2
        rcases List.mem_map.mp hm2b with ⟨m, hm, he⟩
        have he2 : (if m.room_id == rid
            then { m with ttl := some (db.now + TTL_LIVE_INTERVAL) } else m) = m2 := he
        split at he2
        next hc =>
          subst he2
          have hc2 : m.room_id = rid := by simpa using hc
          exact ⟨m, hm, rfl, rfl, rfl, fun _ => rfl, fun hne => absurd hc2 hne⟩
        next hc =>
          subst he2
          have hc2 : ¬ m.room_id = rid := by simpa using hc
          exact ⟨m, hm, rfl, rfl, rfl, fun heq => absurd heq hc2, fun _ => rfl⟩
      · exact absurd h (by simp)
    · exact absurd h (by simp)
  · intro h
    simp only [end_room] at h
    split at h
    · injection h with h
      subst h
      intro m3 hm3
      have hm3b : m3 ∈ (db.members.map (fun m =>
          if m.room_id == rid
          then { m with ttl := some (db.now + TTL_POLLING_INTERVAL) } else m)).map
        (fun m1 =>
          if m1.user_id == u && m1.room_id == rid
          then { m1 with judge_count_list := some jl, score := some sc } else m1) := hm3
      rcases List.mem_map.mp hm3b with ⟨m1, hm1, hg⟩
      rcases List.mem_map.mp hm1 with ⟨m, hm, hf⟩
      have hg2 : (if m1.user_id == u && m1.room_id == rid
          then { m1 with judge_count_list := some jl, score := some sc } else m1) =
          m3 := hg
      have hf2 : (if m.room_id == rid
          then { m with ttl := some (db.now + TTL_POLLING_INTERVAL) } else m) = m1 := hf
      split at hf2
      next hc =>
        have hc2 : m.room_id = rid := by simpa using hc
        subst hf2
        split at hg2
        next hgc =>
          subst hg2
          exact ⟨m, hm, rfl, rfl, rfl, fun _ => rfl, fun hne => absurd hc2 hne⟩
        next hgc =>
          subst hg2
          exact ⟨m, hm, rfl, rfl, rfl, fun _ => rfl, fun hne => absurd hc2 hne⟩
      next hc =>
        have hc2 : ¬ m.room_id = rid := by simpa using hc
        subst hf2
        split at hg2
        next hgc =>
          exfalso
          rw [Bool.and_eq_true] at hgc
          exact hc2 (by simpa using hgc.2)
        next hgc =>
          subst hg2
          exact ⟨m, hm, rfl, rfl, rfl, fun heq => absurd heq hc2, fun _ => rfl⟩
    · exact absurd h (by simp)

/-- Witness for C6 (amended): the start_room call of the counterexample
instantiates the start_room half at dbA. -/
theorem C6_ttl_refresh_spec_witness :
    start_room dbA 7 1 =
      .ok { rooms := [{ id := 1, live_id := 1001, joined_user_count := 2,
                        max_user_count := 4,
                        wait_room_status := WaitRoomStatus.LIVE_START }],
            members :=
              [{ id := 1, user_id := 7, room_id := 1,
                 select_difficulty := LiveDifficulty.NORMAL, is_host := true,
                 judge_count_list := none, score := none, ttl := some 300 },
               { id := 2, user_id := 8, room_id := 1,
                 select_difficulty := LiveDifficulty.HARD, is_host := false,
                 judge_count_list := none, score := none, ttl := some 300 }],
            next_room_id := 2, next_member_id := 3, now := 0 } ∧
    (∀ m2 ∈ ({ rooms := [{ id := 1, live_id := 1001, joined_user_count := 2,
                           max_user_count := 4,
                           wait_room_status := WaitRoomStatus.LIVE_START }],
               members :=
                 [{ id := 1, user_id := 7, room_id := 1,
                    select_difficulty := LiveDifficulty.NORMAL, is_host := true,
                    judge_count_list := none, score := none, ttl := some 300 },
                  { id := 2, user_id := 8, room_id := 1,
                    select_difficulty := LiveDifficulty.HARD, is_host := false,
                    judge_count_list := none, score := none, ttl := some 300 }],
               next_room_id := 2, next_member_id := 3, now := 0 } : DB).members,
      ∃ m ∈ dbA.members,
        m2.id = m.id ∧ m2.user_id = m.user_id ∧ m2.room_id = m.room_id ∧
        (m.room_id = 1 → m2.ttl = some (dbA.now + TTL_LIVE_INTERVAL)) ∧
        (m.room_id ≠ 1 → m2 = m)) :=
  ⟨by decide,
   (@C6_ttl_refresh_spec dbA
      { rooms := [{ id := 1, live_id := 1001, joined_user_count := 2,
                    max_user_count := 4,
                    wait_room_status := WaitRoomStatus.LIVE_START }],
        members :=
          [{ id := 1, user_id := 7, room_id := 1,
             select_difficulty := LiveDifficulty.NORMAL, is_host := true,
             judge_count_list := none, score := none, ttl := some 300 },
           { id := 2, user_id := 8, room_id := 1,
             select_difficulty := LiveDifficulty.HARD, is_host := false,
             judge_count_list := none, score := none, ttl := some 300 }],
        next_room_id := 2, next_member_id := 3, now := 0 }
      dbA 7 1 [] 0).1 (by decide)⟩

/-- Counterexample to C7: on a room that is not LIVE_START, get_room_result
does not report not-ready with an empty list; the .one() call raises
NoResultFound and the request fails.  In dbA the only room is WATING, and the
call returns the error rather than .ok with an empty list. -/
theorem C7_result_not_live_counterexample :
    (∀ r ∈ dbA.rooms, r.wait_room_status ≠ WaitRoomStatus.LIVE_START) ∧
    get_room_result dbA 7 1 = .error Err.noResult :=
  ⟨by decide, by decide⟩

/-- C7 (amended): when no room with the requested id is in status LIVE_START,
get_room_result fails with NoResultFound (the .one() on the conditioned count
query raises); it does not return an empty result list. -/
theorem C7_result_not_live_spec {db : DB} {u rid : Nat}
    (h : ∀ r ∈ db.rooms, r.id = rid →
      r.wait_room_status ≠ WaitRoomStatus.LIVE_START) :
    get_room_result db u rid = .error Err.noResult := by
  simp only [get_room_result]
  have hfil : (update_member_ttl db rid (some u) TTL_POLLING_INTERVAL).rooms.filter
      (fun r => r.id == rid &&
        r.wait_room_status == WaitRoomStatus.LIVE_START) = [] := by
    have hrooms : (update_member_ttl db rid (some u) TTL_POLLING_INTERVAL).rooms =
        db.rooms := rfl
    rw [hrooms, List.filter_eq_nil_iff]
    intro r hr
    simp only [Bool.and_eq_true, beq_iff_eq, not_and]
    intro h1
    exact h r hr h1
  rw [hfil]

/-- Witness for C7 (amended): the WATING room of dbA. -/
theorem C7_result_not_live_spec_witness :
    (∀ r ∈ dbA.rooms, r.id = 1 →
      r.wait_room_status ≠ WaitRoomStatus.LIVE_START) ∧
    get_room_result dbA 7 1 = .error Err.noResult :=
  ⟨by decide, @C7_result_not_live_spec dbA 7 1 (by decide)⟩

/-- The ttl refresh changes no column that the result query reads, so the
submitted results are unaffected by it. -/
theorem submittedResults_ttl (db : DB) (rid : Nat) (uid : Option Nat) (t : Nat) :
    submittedResults (update_member_ttl db rid uid t) rid =
      submittedResults db rid := by
  show ((db.members.map (fun m =>
      if (match uid with | none => true | some u2 => m.user_id == u2) &&
          m.room_id == rid
      then { m with ttl := some (db.now + t) } else m)).filter (fun m =>
        m.room_id == rid && m.judge_count_list.isSome && m.score.isSome)).map
      (fun m => ({ user_id := m.user_id,
                   judge_count_list := m.judge_count_list.getD [],
                   score := m.score.getD 0 } : ResultUser)) =
    (db.members.filter (fun m =>
        m.room_id == rid && m.judge_count_list.isSome && m.score.isSome)).map
      (fun m => ({ user_id := m.user_id,
                   judge_count_list := m.judge_count_list.getD [],
                   score := m.score.getD 0 } : ResultUser))
  rw [filter_map_pres _ _ (fun x => by split <;> rfl),
    map_map_col _ _ (fun x => by split <;> rfl)]

/-- Evaluation of get_room_result on a room in status LIVE_START: the three
source branches, with the ttl-refreshed state in the two not-ready answers
and the dissolved state in the final one. -/
theorem get_room_result_eq {db : DB} {u rid : Nat} {room : Room}
    (hfil : db.rooms.filter (fun r => r.id == rid &&
      r.wait_room_status == WaitRoomStatus.LIVE_START) = [room]) :
    get_room_result db u rid =
      (if ((submittedResults db rid).length : Int) < room.joined_user_count
       then .ok ([], update_member_ttl db rid (some u) TTL_POLLING_INTERVAL)
       else if (submittedResults db rid).all (fun ru => ru.user_id != u)
       then .ok ([], update_member_ttl db rid (some u) TTL_POLLING_INTERVAL)
       else .ok (submittedResults db rid,
         dissolution_room
           (update_member_ttl db rid (some u) TTL_POLLING_INTERVAL) rid)) := by
  simp only [get_room_result]
  have hrr : (update_member_ttl db rid (some u) TTL_POLLING_INTERVAL).rooms =
      db.rooms := rfl
  rw [hrr, hfil, submittedResults_ttl]

/-- The result projection agrees with the membership filter of the room. -/
theorem submittedResults_as_memsOf (db : DB) (rid : Nat) :
    submittedResults db rid =
      ((memsOf db rid).filter (fun m =>
        m.judge_count_list.isSome && m.score.isSome)).map
      (fun m => ({ user_id := m.user_id,
                   judge_count_list := m.judge_count_list.getD [],
                   score := m.score.getD 0 } : ResultUser)) := by
  unfold submittedResults memsOf
  rw [List.filter_filter]
  congr 1
  apply List.filter_congr
  intro m _
  show (m.room_id == rid && m.judge_count_list.isSome && m.score.isSome) =
    (m.judge_count_list.isSome && m.score.isSome && m.room_id == rid)
  cases hA : (m.room_id == rid) <;> cases hB : m.judge_count_list.isSome <;>
    cases hC : m.score.isSome <;> rfl

/-- Counterexample to C4: both readiness conditions can hold while
get_room_result still does not return the result list.  In dbSubW the only
member of room 1 has submitted (judge counts and score populated) and is the
caller, yet the call fails with NoResultFound because the room is WATING, not
LIVE_START. -/
theorem C4_room_result_counterexample :
    (∀ m ∈ dbSubW.members, m.room_id = 1 →
      m.judge_count_list.isSome = true ∧ m.score.isSome = true) ∧
    (∃ ru ∈ submittedResults dbSubW 1, ru.user_id = 7) ∧
    get_room_result dbSubW 7 1 = .error Err.noResult :=
  ⟨by decide, by decide, by decide⟩

/-- C4 (amended): on a room in status LIVE_START, get_room_result returns the
empty list unless every current member of the room has judge counts and score
populated (equivalently, the submitted-result count has reached the joined
count) and the caller is among the submitters; when both conditions hold it
deletes all memberships of the room, forces the room to count 0 and status
DISSOLUTION, and returns the full result list.  On rooms in any other status
the call raises instead (see C7). -/
theorem C4_room_result_spec {db : DB} {u rid : Nat} {room : Room}
    (hInv : Inv db) (hroom : room ∈ db.rooms) (hrid : room.id = rid)
    (hlive : room.wait_room_status = WaitRoomStatus.LIVE_START) :
    (¬ ((submittedResults db rid).length : Int) < room.joined_user_count ↔
      ∀ m ∈ memsOf db rid,
        m.judge_count_list.isSome = true ∧ m.score.isSome = true) ∧
    ((submittedResults db rid).all (fun ru => ru.user_id != u) = false ↔
      ∃ ru ∈ submittedResults db rid, ru.user_id = u) ∧
    (((submittedResults db rid).length : Int) < room.joined_user_count →
      get_room_result db u rid =
        .ok ([], update_member_ttl db rid (some u) TTL_POLLING_INTERVAL)) ∧
    (¬ ((submittedResults db rid).length : Int) < room.joined_user_count →
      (submittedResults db rid).all (fun ru => ru.user_id != u) = true →
      get_room_result db u rid =
        .ok ([], update_member_ttl db rid (some u) TTL_POLLING_INTERVAL)) ∧
    (¬ ((submittedResults db rid).length : Int) < room.joined_user_count →
      (submittedResults db rid).all (fun ru => ru.user_id != u) = false →
      get_room_result db u rid =
        .ok (submittedResults db rid,
          dissolution_room
            (update_member_ttl db rid (some u) TTL_POLLING_INTERVAL) rid) ∧
      memsOf (dissolution_room
        (update_member_ttl db rid (some u) TTL_POLLING_INTERVAL) rid) rid = [] ∧
      roomOf (dissolution_room
          (update_member_ttl db rid (some u) TTL_POLLING_INTERVAL) rid) rid =
        some { room with joined_user_count := 0,
                         wait_room_status := WaitRoomStatus.DISSOLUTION }) := by
  have hfil0 : db.rooms.filter (fun r => r.id == rid &&
      r.wait_room_status == WaitRoomStatus.LIVE_START) = [room] := by
    apply filter_eq_singleton_of_unique (List.Nodup.of_map _ hInv.1.1) hroom
    · rw [Bool.and_eq_true]
      exact ⟨by simpa using hrid, by simpa using hlive⟩
    · intro x hx hpx
      rw [Bool.and_eq_true] at hpx
      have hxid : x.id = rid := by simpa using hpx.1
      exact List.inj_on_of_nodup_map hInv.1.1 hx hroom (by rw [hxid, hrid])
  have hcnt : room.joined_user_count = ((memsOf db rid).length : Int) := by
    have h1 := (hInv.2 room hroom).1.1
    rw [hrid] at h1
    exact h1
  have hlen : (submittedResults db rid).length =
      ((memsOf db rid).filter (fun m =>
        m.judge_count_list.isSome && m.score.isSome)).length := by
    rw [submittedResults_as_memsOf, List.length_map]
  have hle : ((memsOf db rid).filter (fun m =>
      m.judge_count_list.isSome && m.score.isSome)).length ≤
      (memsOf db rid).length := List.length_filter_le _ _
  refine ⟨?_, ?_, ?_, ?_, ?_⟩
  · constructor
    · intro hnl m hm
      rw [hlen] at hnl
      have heq : ((memsOf db rid).filter (fun m =>
          m.judge_count_list.isSome && m.score.isSome)).length =
          (memsOf db rid).length := by omega
      have hself : (memsOf db rid).filter (fun m =>
          m.judge_count_list.isSome && m.score.isSome) = memsOf db rid :=
        (List.filter_sublist _).eq_of_length heq
      have hm2 : m ∈ (memsOf db rid).filter (fun m =>
          m.judge_count_list.isSome && m.score.isSome) := by
        rw [hself]; exact hm
      have hsm := List.of_mem_filter hm2
      rw [Bool.and_eq_true] at hsm
      exact hsm
    · intro hall
      have hself : (memsOf db rid).filter (fun m =>
          m.judge_count_list.isSome && m.score.isSome) = memsOf db rid := by
        rw [List.filter_eq_self]
        intro m hm
        rw [Bool.and_eq_true]
        exact hall m hm
      rw [hlen, hself]
      omega
  · constructor
    · intro h
      rw [List.all_eq_false] at h
      obtain ⟨ru, hru, hp⟩ := h
      exact ⟨ru, hru, by simpa using hp⟩
    · rintro ⟨ru, hru, hp⟩
      rw [List.all_eq_false]
      exact ⟨ru, hru, by simp [hp]⟩
  · intro hlt
    rw [get_room_result_eq hfil0, if_pos hlt]
  · intro hnl hall
    rw [get_room_result_eq hfil0, if_neg hnl, if_pos hall]
  · intro hnl hall
    refine ⟨?_, ?_, ?_⟩
    · rw [get_room_result_eq hfil0, if_neg hnl, if_neg (by simp [hall])]
    · unfold memsOf dissolution_room
      rw [List.filter_eq_nil_iff]
      intro m hm
      have h1 := List.of_mem_filter hm
      simp only [bne_iff_ne, ne_eq] at h1
      simp [h1]
    · have hupdid : ∀ r : Room,
          ((fun r => if r.id == rid then
            { r with joined_user_count := 0,
                     wait_room_status := WaitRoomStatus.DISSOLUTION } else r) r).id =
            r.id := fun r => by by_cases hc : (r.id == rid) = true <;> simp [hc]
      have hnodup2 : ((db.rooms.map (fun r => if r.id == rid then
          { r with joined_user_count := 0,
                   wait_room_status := WaitRoomStatus.DISSOLUTION } else r)).map
          (fun r => r.id)).Nodup := by
        rw [map_map_col _ _ hupdid]
        exact hInv.1.1
      have hmem2 : ({ room with
            joined_user_count := 0,
            wait_room_status := WaitRoomStatus.DISSOLUTION } : Room) ∈
          db.rooms.map (fun r => if r.id == rid then
            { r with joined_user_count := 0,
                     wait_room_status := WaitRoomStatus.DISSOLUTION } else r) := by
        refine List.mem_map.mpr ⟨room, hroom, ?_⟩
        have hc : (room.id == rid) = true := by simpa using hrid
        simp [hc]
      exact roomOf_eq_some hnodup2 hmem2 hrid

/-- Witness for C4 (amended): in dbLive both members of the LIVE_START room
submitted and user 7 is among them, so the ready branch applies. -/
theorem C4_room_result_spec_witness :
    Inv dbLive ∧
    ({ id := 1, live_id := 1001, joined_user_count := 2, max_user_count := 4,
       wait_room_status := WaitRoomStatus.LIVE_START } : Room) ∈ dbLive.rooms ∧
    ((¬ ((submittedResults dbLive 1).length : Int) <
        ({ id := 1, live_id := 1001, joined_user_count := 2, max_user_count := 4,
           wait_room_status := WaitRoomStatus.LIVE_START } : Room).joined_user_count ↔
      ∀ m ∈ memsOf dbLive 1,
        m.judge_count_list.isSome = true ∧ m.score.isSome = true) ∧
    ((submittedResults dbLive 1).all (fun ru => ru.user_id != 7) = false ↔
      ∃ ru ∈ submittedResults dbLive 1, ru.user_id = 7) ∧
    (((submittedResults dbLive 1).length : Int) <
        ({ id := 1, live_id := 1001, joined_user_count := 2, max_user_count := 4,
           wait_room_status := WaitRoomStatus.LIVE_START } : Room).joined_user_count →
      get_room_result dbLive 7 1 =
        .ok ([], update_member_ttl dbLive 1 (some 7) TTL_POLLING_INTERVAL)) ∧
    (¬ ((submittedResults dbLive 1).length : Int) <
        ({ id := 1, live_id := 1001, joined_user_count := 2, max_user_count := 4,
           wait_room_status := WaitRoomStatus.LIVE_START } : Room).joined_user_count →
      (submittedResults dbLive 1).all (fun ru => ru.user_id != 7) = true →
      get_room_result dbLive 7 1 =
        .ok ([], update_member_ttl dbLive 1 (some 7) TTL_POLLING_INTERVAL)) ∧
    (¬ ((submittedResults dbLive 1).length : Int) <
        ({ id := 1, live_id := 1001, joined_user_count := 2, max_user_count := 4,
           wait_room_status := WaitRoomStatus.LIVE_START } : Room).joined_user_count →
      (submittedResults dbLive 1).all (fun ru => ru.user_id != 7) = false →
      get_room_result dbLive 7 1 =
        .ok (submittedResults dbLive 1,
          dissolution_room
            (update_member_ttl dbLive 1 (some 7) TTL_POLLING_INTERVAL) 1) ∧
      memsOf (dissolution_room
        (update_member_ttl dbLive 1 (some 7) TTL_POLLING_INTERVAL) 1) 1 = [] ∧
      roomOf (dissolution_room
          (update_member_ttl dbLive 1 (some 7) TTL_POLLING_INTERVAL) 1) 1 =
        some { id := 1, live_id := 1001, joined_user_count := 0,
               max_user_count := 4,
               wait_room_status := WaitRoomStatus.DISSOLUTION })) :=
  ⟨by unfold Inv Inv0 RoomOk RoomOkW; decide, by decide,
   @C4_room_result_spec dbLive 7 1
     { id := 1, live_id := 1001, joined_user_count := 2, max_user_count := 4,
       wait_room_status := WaitRoomStatus.LIVE_START }
     (by unfold Inv Inv0 RoomOk RoomOkW; decide) (by decide) (by decide)
     (by decide)⟩

end GameServer
